import Mathlib

/-!
# libtar extraction engine (`tools/installer/libtar/extract.cc`)

A shallow embedding of the extraction dispatcher `tar_extract_file`, the metadata step
`tar_set_file_perms` and the per-kind extractors, followed by theorems about them.

The code talks to three collaborators that are not part of the file: the virtual
filesystem (`VFS::Filesystem`, `VFS::File`), the block source (`tar_block_read`) and the
libtar hash that holds the `linkname_t` records.  Every call to a collaborator is
appended, with the value it returned, to a trace; the value itself is supplied by an
environment that may depend on everything that happened before.  The only state the code
owns is `errno` (which it assigns explicitly) and the link table `t->h`.
-/

namespace Extract

/-- A C string: the bytes in front of the terminating NUL. -/
abbrev CStr := List Nat

/-- The record `struct linkname`: two 4096-byte buffers holding C strings. -/
structure linkname where
  ln_save : CStr
  ln_real : CStr
  deriving DecidableEq, Repr

/-- A call that leaves `extract.cc`: a method of the `VFS::Filesystem` or of the output
`VFS::File`, `mkdirhier`, `tar_block_read`, `calloc`, `libtar_hash_add`, or the warning
printed on `stderr`.  `fs_lstat` carries the pointer it was given, which may be null;
`file_delete` is the statement `delete fhout`, whatever the handle is. -/
inductive Call where
  | fs_lstat (path : Option CStr)
  | fs_chown (path : CStr) (uid gid : Nat)
  | fs_chmod (path : CStr) (mode : Nat)
  | fs_open (path : CStr)
  | fs_mkdir (path : CStr)
  | fs_unlink (path : CStr)
  | fs_symlink (target path : CStr)
  | fs_link (target path : CStr)
  | mkdirhier (path : CStr)
  | file_error
  | file_write (bytes : List Nat)
  | file_close
  | file_delete
  | block_read
  | calloc
  | hash_add (lnp : linkname)
  | warning
  deriving DecidableEq, Repr

/-- A call together with the value it returned; `data` is the content of the block
buffer after a `tar_block_read` and is empty for every other call. -/
structure Event where
  call : Call
  ret : Int
  data : List Nat
  deriving DecidableEq, Repr

/-- The collaborators: `ret h c` is the value call `c` returns after the history `h`
(pointers are reported as integers, `0` being the null pointer), `block h` is what a
`tar_block_read` issued after `h` leaves in the buffer. -/
structure Env where
  ret : List Event → Call → Int
  block : List Event → List Nat

/-- The state threaded through the code: the calls made so far in call order, the
value of `errno` as assigned by this file, and the records of the link table `t->h`
in insertion order. -/
structure World where
  trace : List Event
  errno : Int
  table : List linkname
  deriving DecidableEq, Repr

/-- The fields of `TAR *t` the code reads: the option bits and the header accessors.
The `TH_IS*` predicates are macros of `libtar.h`; they are kept as independent flags,
since nothing in this file makes them mutually exclusive. -/
structure TAR where
  options : Nat
  isreg : Bool
  isdir : Bool
  islnk : Bool
  issym : Bool
  ischr : Bool
  isblk : Bool
  isfifo : Bool
  pathname : CStr
  linkname : CStr
  mode : Nat
  uid : Nat
  gid : Nat
  size : Nat
  deriving DecidableEq, Repr

/-- Block size of the archive stream (`libtar.h`). -/
def T_BLOCKSIZE : Int := 512

/-- Option bit "do not overwrite existing files" (`libtar.h`). -/
def TAR_NOOVERWRITE : Nat := 4

/-- The value of `ENOENT` in `errno.h`. -/
def ENOENT : Int := 2

/-- The value of `EEXIST` in `errno.h`. -/
def EEXIST : Int := 17

/-- The value of `EINVAL` in `errno.h`. -/
def EINVAL : Int := 22

/-- Issue a call: ask the environment for its result and log the event. -/
def World.call (e : Env) (w : World) (c : Call) : Int × World :=
  (e.ret w.trace c, { w with trace := w.trace ++ [⟨c, e.ret w.trace c, []⟩] })

/-- Issue a sequence of calls one after the other, dropping their results. -/
def World.calls (e : Env) (w : World) : List Call → World
  | [] => w
  | c :: cs => World.calls e (w.call e c).2 cs

/-- The read `k = tar_block_read(t, buf)`: returns `k` and the buffer content. -/
def tar_block_read (e : Env) (w : World) : (Int × List Nat) × World :=
  ((e.ret w.trace Call.block_read, e.block w.trace),
   { w with trace := w.trace ++
      [⟨Call.block_read, e.ret w.trace Call.block_read, e.block w.trace⟩] })

/-- The conversion of `i = size`, a `size_t` stored into a 32-bit `int`. -/
def int_of_size_t (n : Nat) : Int :=
  if n % 2 ^ 32 < 2 ^ 31 then ((n % 2 ^ 32 : Nat) : Int) else ((n % 2 ^ 32 : Nat) : Int) - 2 ^ 32

/-- Modelled from the spec: `libtar_hash_getkey` with `libtar_str_match`, which is not
part of this file; the table is "keyed by exact string match on the original
pathname".  The result is the first record inserted under that key. -/
def libtar_hash_getkey (h : List linkname) (key : CStr) : Option linkname :=
  h.find? (fun x => decide (x.ln_save = key))

/-- Modelled from the spec: `libtar_hash_add`, which is not part of this file; it either
fails with a non-zero value and leaves the table alone, or appends the record and
returns `0`. -/
def libtar_hash_add (e : Env) (w : World) (lnp : linkname) : Int × World :=
  let r := w.call e (Call.hash_add lnp)
  if r.1 ≠ 0 then r else (r.1, { r.2 with table := r.2.table ++ [lnp] })

/-- Source `tar_set_file_perms`: both results are dropped. -/
def tar_set_file_perms (e : Env) (t : TAR) (realname : Option CStr) (w : World) :
    Int × World :=
  let filename := realname.getD t.pathname
  let w1 := (w.call e (Call.fs_chown filename t.uid t.gid)).2
  let w2 := (w1.call e (Call.fs_chmod filename (t.mode &&& 0o7777))).2
  (0, w2)

/-- The tail of `tar_extract_regfile` after the copy loop. -/
def regfile_close (e : Env) (w : World) : Int × World :=
  let r := w.call e Call.file_close
  if r.1 < 0 then (-1, r.2) else (0, (r.2.call e Call.file_delete).2)

/-- The copy loop of `tar_extract_regfile` from its test `i > 0` on, followed by the
tail of the function.  The first argument bounds the number of iterations; the loop is
entered with `i.toNat`, which it never exhausts (see `regfile_loop_fuel`). -/
def regfile_loop (e : Env) : Nat → Int → World → Int × World
  | 0, _, w => regfile_close e w
  | fuel + 1, i, w =>
    if i > 0 then
      let r := tar_block_read e w
      if r.1.1 ≠ T_BLOCKSIZE then
        let w1 := if r.1.1 ≠ -1 then { r.2 with errno := EINVAL } else r.2
        (-1, (w1.call e Call.file_delete).2)
      else
        let n := if i > T_BLOCKSIZE then T_BLOCKSIZE else i
        let r2 := r.2.call e (Call.file_write (r.1.2.take n.toNat))
        if r2.1 < 0 then (-1, (r2.2.call e Call.file_delete).2)
        else regfile_loop e fuel (i - T_BLOCKSIZE) r2.2
    else regfile_close e w

/-- Source `tar_extract_regfile`. -/
def tar_extract_regfile (e : Env) (t : TAR) (realname : Option CStr) (w : World) :
    Int × World :=
  if !t.isreg then (-1, { w with errno := EINVAL })
  else
    let filename := realname.getD t.pathname
    let r1 := w.call e (Call.mkdirhier filename)
    if r1.1 = -1 then (-1, r1.2)
    else
      let r2 := r1.2.call e (Call.fs_open filename)
      if r2.1 = 0 then (-1, (r2.2.call e Call.file_delete).2)
      else
        let r3 := r2.2.call e Call.file_error
        if r3.1 ≠ 0 then (-1, (r3.2.call e Call.file_delete).2)
        else regfile_loop e (int_of_size_t t.size).toNat (int_of_size_t t.size) r3.2

/-- Source `tar_extract_hardlink`. -/
def tar_extract_hardlink (e : Env) (t : TAR) (realname : Option CStr) (w : World) :
    Int × World :=
  if !t.islnk then (-1, { w with errno := EINVAL })
  else
    let filename := realname.getD t.pathname
    let r1 := w.call e (Call.mkdirhier filename)
    if r1.1 = -1 then (-1, r1.2)
    else
      let linktgt :=
        match libtar_hash_getkey r1.2.table t.linkname with
        | some lnp => lnp.ln_real
        | none => t.linkname
      let r2 := r1.2.call e (Call.fs_link linktgt filename)
      if r2.1 < 0 then (-1, r2.2) else (0, r2.2)

/-- Source `tar_extract_symlink`. -/
def tar_extract_symlink (e : Env) (t : TAR) (realname : Option CStr) (w : World) :
    Int × World :=
  if !t.issym then (-1, { w with errno := EINVAL })
  else
    let filename := realname.getD t.pathname
    let r1 := w.call e (Call.mkdirhier filename)
    if r1.1 = -1 then (-1, r1.2)
    else
      let r2 := r1.2.call e (Call.fs_unlink filename)
      if r2.1 < 0 ∧ r2.1 ≠ -ENOENT then (-1, r2.2)
      else
        let r3 := r2.2.call e (Call.fs_symlink t.linkname filename)
        if r3.1 = -1 then (-1, r3.2) else (0, r3.2)

/-- Source `tar_extract_dev`: the warning and `return -1`; the rest is compiled out. -/
def tar_extract_dev (e : Env) (w : World) : Int × World :=
  (-1, (w.call e Call.warning).2)

/-- Source `tar_extract_chardev`. -/
def tar_extract_chardev (e : Env) (w : World) : Int × World :=
  tar_extract_dev e w

/-- Source `tar_extract_blockdev`. -/
def tar_extract_blockdev (e : Env) (w : World) : Int × World :=
  tar_extract_dev e w

/-- Source `tar_extract_dir`. -/
def tar_extract_dir (e : Env) (t : TAR) (realname : Option CStr) (w : World) :
    Int × World :=
  if !t.isdir then (-1, { w with errno := EINVAL })
  else
    let filename := realname.getD t.pathname
    let r1 := w.call e (Call.mkdirhier filename)
    if r1.1 = -1 then (-1, r1.2)
    else
      let r2 := r1.2.call e (Call.fs_mkdir filename)
      if r2.1 < 0 then
        if r2.1 = -EEXIST then
          let r3 := r2.2.call e (Call.fs_chmod filename t.mode)
          if r3.1 < 0 then (-1, r3.2) else (1, r3.2)
        else (-1, r2.2)
      else (0, r2.2)

/-- Source `tar_extract_fifo`: the warning, and then the end of the function body is
reached without a `return`; the value the caller reads is not defined (`none`). -/
def tar_extract_fifo (e : Env) (w : World) : Option Int × World :=
  (none, (w.call e Call.warning).2)

/-- The switchboard of `tar_extract_file`: the value assigned to `i`. -/
def tar_extract_file_switch (e : Env) (t : TAR) (realname : Option CStr) (w : World) :
    Option Int × World :=
  if t.isdir then
    let r := tar_extract_dir e t realname w
    (some (if r.1 = 1 then 0 else r.1), r.2)
  else if t.islnk then
    let r := tar_extract_hardlink e t realname w
    (some r.1, r.2)
  else if t.issym then
    let r := tar_extract_symlink e t realname w
    (some r.1, r.2)
  else if t.ischr then
    let r := tar_extract_chardev e w
    (some r.1, r.2)
  else if t.isblk then
    let r := tar_extract_blockdev e w
    (some r.1, r.2)
  else if t.isfifo then
    tar_extract_fifo e w
  else
    let r := tar_extract_regfile e t realname w
    (some r.1, r.2)

/-- The end of `tar_extract_file`: allocate the record, fill it with `strncpy` (at most
4095 bytes each) and add it to the table.  `realname` is handed to `strncpy` as it is:
with a null pointer the behaviour is not defined (`none`). -/
def tar_extract_file_record (e : Env) (t : TAR) (realname : Option CStr) (w : World) :
    Option Int × World :=
  let r := w.call e Call.calloc
  if r.1 = 0 then (some (-1), r.2)
  else
    match realname with
    | none => (none, r.2)
    | some real =>
      let r2 := libtar_hash_add e r.2 ⟨t.pathname.take 4095, real.take 4095⟩
      if r2.1 ≠ 0 then (some (-1), r2.2) else (some 0, r2.2)

/-- The part of `tar_extract_file` after the overwrite check. -/
def tar_extract_file_body (e : Env) (t : TAR) (realname : Option CStr) (w : World) :
    Option Int × World :=
  let r := tar_extract_file_switch e t realname w
  match r.1 with
  | none => (none, r.2)
  | some i =>
    if i ≠ 0 then (some i, r.2)
    else
      let p := tar_set_file_perms e t realname r.2
      if p.1 ≠ 0 then (some p.1, p.2)
      else tar_extract_file_record e t realname p.2

/-- Source `tar_extract_file`.  The result is `none` where the C++ code has no defined
result. -/
def tar_extract_file (e : Env) (t : TAR) (realname : Option CStr) (w : World) :
    Option Int × World :=
  if t.options &&& TAR_NOOVERWRITE ≠ 0 then
    let r := w.call e (Call.fs_lstat realname)
    if r.1 ≥ 0 ∨ r.1 ≠ -ENOENT then (some (-1), { r.2 with errno := EEXIST })
    else tar_extract_file_body e t realname r.2
  else tar_extract_file_body e t realname w

/-! ## Reading a trace -/

/-- The values returned by the block reads of a trace, in call order. -/
def blockReads (evs : List Event) : List Int :=
  evs.filterMap (fun ev => if ev.call = Call.block_read then some ev.ret else none)

/-- The blocks delivered by the block reads of a trace, in call order. -/
def blocksRead (evs : List Event) : List (List Nat) :=
  evs.filterMap (fun ev => if ev.call = Call.block_read then some ev.data else none)

/-- The byte strings handed to `write`, in call order. -/
def writes (evs : List Event) : List (List Nat) :=
  evs.filterMap (fun ev => match ev.call with
    | Call.file_write bytes => some bytes
    | _ => none)

/-- Calls that change the target filesystem or the output file. -/
def Call.mutating : Call → Bool
  | Call.fs_chown _ _ _ => true
  | Call.fs_chmod _ _ => true
  | Call.fs_open _ => true
  | Call.fs_mkdir _ => true
  | Call.fs_unlink _ => true
  | Call.fs_symlink _ _ => true
  | Call.fs_link _ _ => true
  | Call.mkdirhier _ => true
  | Call.file_write _ => true
  | _ => false

/-- The events a call added to the trace: those of `w2` that were not yet in `w1`. -/
def newEvents (w1 w2 : World) : List Event :=
  w2.trace.drop w1.trace.length

/-- How the block reads of a regular-file extraction can look: either every read
returned a full block, or the reads are `m` full blocks followed by one read that
returned `k ≠ T_BLOCKSIZE`; in that case exactly `m` writes were made, the result is
`-1`, and `errno` is `EINVAL` unless `k = -1`. -/
def ReadsShape (evs : List Event) (res : Int) (errno : Int) : Prop :=
  (∀ x ∈ blockReads evs, x = 512) ∨
  ∃ m k, k ≠ 512 ∧ blockReads evs = List.replicate m 512 ++ [k] ∧
    (writes evs).length = m ∧ res = -1 ∧ (k ≠ -1 → errno = EINVAL)

/-- What a successful copy of `n` bytes leaves in the trace: the bytes written are the
first `n` bytes of the blocks read, `⌈n/512⌉` blocks of 512 bytes were read, and the
writes are `n / 512` full blocks followed by the `n % 512` remaining bytes, if any. -/
def CopyOf (n : Nat) (evs : List Event) : Prop :=
  (writes evs).flatten = ((blocksRead evs).flatten).take n ∧
  (blocksRead evs).length = (n + 511) / 512 ∧
  (∀ b ∈ blocksRead evs, b.length = 512) ∧
  (writes evs).map List.length =
    List.replicate (n / 512) 512 ++ (if n % 512 = 0 then [] else [n % 512])

/-! ## Sample data -/

/-- An environment in which every call succeeds: pointers are non-null, reads deliver
a full block of bytes `7`, everything else returns `0`. -/
def okEnv : Env where
  ret := fun _ c =>
    match c with
    | Call.block_read => 512
    | Call.fs_open _ => 1
    | Call.calloc => 1
    | _ => 0
  block := fun _ => List.replicate 512 7

/-- The empty world: nothing called yet, `errno` zero, empty link table. -/
def w0 : World := ⟨[], 0, []⟩

/-- A header of pathname `"f"`, link target `"t"`, mode `0644`, owner `1000:100`, with
the given option bits; all kind flags are off. -/
def baseHdr (options : Nat) : TAR :=
  { options := options, isreg := false, isdir := false, islnk := false, issym := false,
    ischr := false, isblk := false, isfifo := false, pathname := [102], linkname := [116],
    mode := 0o100644, uid := 1000, gid := 100, size := 0 }

/-- An environment like `okEnv` except that the given predicate selects calls that
return the given value instead. -/
def failEnv (bad : Call → Bool) (v : Int) : Env where
  ret := fun h c => if bad c then v else okEnv.ret h c
  block := okEnv.block

/-- An environment in which the directory already exists: `mkdir` returns `-EEXIST`. -/
def existsEnv : Env := failEnv (fun c => c matches Call.fs_mkdir _) (-17)

/-- An environment like `okEnv` in which `symlink` returns `-EACCES`. -/
def eaccesEnv : Env := failEnv (fun c => c matches Call.fs_symlink _ _) (-13)

/-- An environment like `okEnv` in which `chown` and `chmod` return `-1`. -/
def permsFailEnv : Env :=
  failEnv (fun c => c matches Call.fs_chown _ _ _ | Call.fs_chmod _ _) (-1)

/-- An environment like `okEnv` in which nothing exists yet: `lstat` returns `-ENOENT`. -/
def freshEnv : Env := failEnv (fun c => c matches Call.fs_lstat _) (-2)

/-- A symlink header `"f" -> "t"`. -/
def symHdr : TAR := { baseHdr 0 with issym := true }

/-- A directory header `"f"`. -/
def dirHdr : TAR := { baseHdr 0 with isdir := true, mode := 0o40755 }

/-- A FIFO header `"f"`. -/
def fifoHdr : TAR := { baseHdr 0 with isfifo := true, mode := 0o10644 }

/-- A hard-link header `"h"` whose link target is `"f"`. -/
def lnkHdr : TAR := { baseHdr 0 with islnk := true, pathname := [104], linkname := [102] }

/-- A regular-file header `"f"` of the given size. -/
def regHdr (size : Nat) : TAR := { baseHdr 0 with isreg := true, size := size }

/-- An environment like `okEnv` whose block source is truncated: the first read delivers
a full block, the second read returns `100`. -/
def shortEnv : Env where
  ret := fun h c =>
    match c with
    | Call.block_read => if (blockReads h).length = 1 then 100 else 512
    | Call.fs_open _ => 1
    | Call.calloc => 1
    | _ => 0
  block := fun _ => List.replicate 512 7

/-! ## Basic facts about calls -/

@[simp] theorem call_fst (e : Env) (w : World) (c : Call) :
    (w.call e c).1 = e.ret w.trace c := rfl

@[simp] theorem call_trace (e : Env) (w : World) (c : Call) :
    (w.call e c).2.trace = w.trace ++ [⟨c, e.ret w.trace c, []⟩] := rfl

@[simp] theorem call_errno (e : Env) (w : World) (c : Call) :
    (w.call e c).2.errno = w.errno := rfl

@[simp] theorem call_table (e : Env) (w : World) (c : Call) :
    (w.call e c).2.table = w.table := rfl

@[simp] theorem calls_nil (e : Env) (w : World) : w.calls e [] = w := rfl

@[simp] theorem calls_cons (e : Env) (w : World) (c : Call) (cs : List Call) :
    w.calls e (c :: cs) = (w.call e c).2.calls e cs := rfl

@[simp] theorem calls_errno (e : Env) (w : World) (cs : List Call) :
    (w.calls e cs).errno = w.errno := by
  induction cs generalizing w with
  | nil => rfl
  | cons c cs ih => simp [ih]

@[simp] theorem calls_table (e : Env) (w : World) (cs : List Call) :
    (w.calls e cs).table = w.table := by
  induction cs generalizing w with
  | nil => rfl
  | cons c cs ih => simp [ih]

theorem calls_append (e : Env) (w : World) (cs ds : List Call) :
    w.calls e (cs ++ ds) = (w.calls e cs).calls e ds := by
  induction cs generalizing w with
  | nil => rfl
  | cons c cs ih => simp [ih]

/-! ## Reading traces -/

@[simp] theorem blockReads_nil : blockReads [] = [] := rfl

@[simp] theorem blockReads_append (a b : List Event) :
    blockReads (a ++ b) = blockReads a ++ blockReads b := by
  simp [blockReads]

@[simp] theorem blockReads_cons (ev : Event) (evs : List Event) :
    blockReads (ev :: evs) =
      (if ev.call = Call.block_read then [ev.ret] else []) ++ blockReads evs := by
  simp only [blockReads, List.filterMap_cons]
  split_ifs <;> rfl

@[simp] theorem blocksRead_nil : blocksRead [] = [] := rfl

@[simp] theorem blocksRead_append (a b : List Event) :
    blocksRead (a ++ b) = blocksRead a ++ blocksRead b := by
  simp [blocksRead]

@[simp] theorem blocksRead_cons (ev : Event) (evs : List Event) :
    blocksRead (ev :: evs) =
      (if ev.call = Call.block_read then [ev.data] else []) ++ blocksRead evs := by
  simp only [blocksRead, List.filterMap_cons]
  split_ifs <;> rfl

@[simp] theorem writes_nil : writes [] = [] := rfl

@[simp] theorem writes_append (a b : List Event) :
    writes (a ++ b) = writes a ++ writes b := by
  simp [writes]

theorem writes_cons_write (r : Int) (d bytes : List Nat) (evs : List Event) :
    writes (⟨Call.file_write bytes, r, d⟩ :: evs) = bytes :: writes evs := rfl

theorem newEvents_of_append (w1 w2 : World) (evs : List Event)
    (h : w2.trace = w1.trace ++ evs) : newEvents w1 w2 = evs := by
  simp [newEvents, h]

@[simp] theorem tar_block_read_ret (e : Env) (w : World) :
    (tar_block_read e w).1.1 = e.ret w.trace Call.block_read := rfl

@[simp] theorem tar_block_read_data (e : Env) (w : World) :
    (tar_block_read e w).1.2 = e.block w.trace := rfl

@[simp] theorem tar_block_read_trace (e : Env) (w : World) :
    (tar_block_read e w).2.trace = w.trace ++
      [⟨Call.block_read, e.ret w.trace Call.block_read, e.block w.trace⟩] := rfl

@[simp] theorem tar_block_read_errno (e : Env) (w : World) :
    (tar_block_read e w).2.errno = w.errno := rfl

/-! ## The copy loop -/

theorem regfile_loop_zero (e : Env) (i : Int) (w : World) :
    regfile_loop e 0 i w = regfile_close e w := rfl

theorem regfile_loop_done (e : Env) (fuel : Nat) (i : Int) (w : World) (hi : ¬ i > 0) :
    regfile_loop e fuel i w = regfile_close e w := by
  cases fuel with
  | zero => rfl
  | succ n => simp [regfile_loop, hi]

theorem regfile_loop_succ (e : Env) (fuel : Nat) (i : Int) (w : World) :
    regfile_loop e (fuel + 1) i w =
      if i > 0 then
        if e.ret w.trace Call.block_read ≠ T_BLOCKSIZE then
          (-1, ((if e.ret w.trace Call.block_read ≠ -1
            then { (tar_block_read e w).2 with errno := EINVAL }
            else (tar_block_read e w).2).call e Call.file_delete).2)
        else
          if e.ret (tar_block_read e w).2.trace (Call.file_write
              ((e.block w.trace).take (if i > T_BLOCKSIZE then T_BLOCKSIZE else i).toNat)) < 0
          then (-1, (((tar_block_read e w).2.call e (Call.file_write
              ((e.block w.trace).take
                (if i > T_BLOCKSIZE then T_BLOCKSIZE else i).toNat))).2.call e
                  Call.file_delete).2)
          else regfile_loop e fuel (i - T_BLOCKSIZE)
            ((tar_block_read e w).2.call e (Call.file_write
              ((e.block w.trace).take (if i > T_BLOCKSIZE then T_BLOCKSIZE else i).toNat))).2
      else regfile_close e w := rfl

theorem regfile_loop_read_fail (e : Env) (fuel : Nat) (i : Int) (w : World) (hi : i > 0)
    (hk : e.ret w.trace Call.block_read ≠ T_BLOCKSIZE) :
    regfile_loop e (fuel + 1) i w =
      (-1, ((if e.ret w.trace Call.block_read ≠ -1
        then { (tar_block_read e w).2 with errno := EINVAL }
        else (tar_block_read e w).2).call e Call.file_delete).2) := by
  rw [regfile_loop_succ, if_pos hi, if_pos hk]

theorem regfile_loop_write_fail (e : Env) (fuel : Nat) (i : Int) (w : World) (hi : i > 0)
    (hk : e.ret w.trace Call.block_read = T_BLOCKSIZE)
    (hw : e.ret (tar_block_read e w).2.trace (Call.file_write
      ((e.block w.trace).take (if i > T_BLOCKSIZE then T_BLOCKSIZE else i).toNat)) < 0) :
    regfile_loop e (fuel + 1) i w =
      (-1, (((tar_block_read e w).2.call e (Call.file_write
        ((e.block w.trace).take (if i > T_BLOCKSIZE then T_BLOCKSIZE else i).toNat))).2.call e
          Call.file_delete).2) := by
  rw [regfile_loop_succ, if_pos hi, if_neg (not_not.mpr hk), if_pos hw]

theorem regfile_loop_step (e : Env) (fuel : Nat) (i : Int) (w : World) (hi : i > 0)
    (hk : e.ret w.trace Call.block_read = T_BLOCKSIZE)
    (hw : ¬ e.ret (tar_block_read e w).2.trace (Call.file_write
      ((e.block w.trace).take (if i > T_BLOCKSIZE then T_BLOCKSIZE else i).toNat)) < 0) :
    regfile_loop e (fuel + 1) i w =
      regfile_loop e fuel (i - T_BLOCKSIZE) ((tar_block_read e w).2.call e (Call.file_write
        ((e.block w.trace).take (if i > T_BLOCKSIZE then T_BLOCKSIZE else i).toNat))).2 := by
  rw [regfile_loop_succ, if_pos hi, if_neg (not_not.mpr hk), if_neg hw]

theorem regfile_loop_fuel_indep (e : Env) (fuel1 fuel2 : Nat) (i : Int) (w : World)
    (h1 : i.toNat ≤ fuel1) (h2 : i.toNat ≤ fuel2) :
    regfile_loop e fuel1 i w = regfile_loop e fuel2 i w := by
  induction fuel1 generalizing fuel2 i w with
  | zero =>
    have hi : ¬ i > 0 := by omega
    rw [regfile_loop_done e _ i w hi, regfile_loop_done e _ i w hi]
  | succ n ih =>
    by_cases hi : i > 0
    · obtain ⟨m, rfl⟩ : ∃ m, fuel2 = m + 1 := ⟨fuel2 - 1, by omega⟩
      by_cases hk : e.ret w.trace Call.block_read = T_BLOCKSIZE
      · by_cases hw : e.ret (tar_block_read e w).2.trace (Call.file_write
          ((e.block w.trace).take (if i > T_BLOCKSIZE then T_BLOCKSIZE else i).toNat)) < 0
        · rw [regfile_loop_write_fail e n i w hi hk hw,
            regfile_loop_write_fail e m i w hi hk hw]
        · have h3 : (i - T_BLOCKSIZE).toNat ≤ n := by simp only [T_BLOCKSIZE]; omega
          have h4 : (i - T_BLOCKSIZE).toNat ≤ m := by simp only [T_BLOCKSIZE]; omega
          rw [regfile_loop_step e n i w hi hk hw, regfile_loop_step e m i w hi hk hw]
          exact ih m _ _ h3 h4
      · rw [regfile_loop_read_fail e n i w hi hk, regfile_loop_read_fail e m i w hi hk]
    · rw [regfile_loop_done e _ i w hi, regfile_loop_done e _ i w hi]

/-- The bound `i.toNat` on the number of iterations is never reached: any larger bound
gives the same run of the loop. -/
theorem regfile_loop_fuel (e : Env) (fuel : Nat) (i : Int) (w : World)
    (h : i.toNat ≤ fuel) : regfile_loop e fuel i w = regfile_loop e i.toNat i w :=
  regfile_loop_fuel_indep e fuel i.toNat i w h (le_refl _)

/-- The loop as the C code runs it, entered with the bound `i.toNat`: one unfolding of
`for (...; i > 0; i -= T_BLOCKSIZE)`. -/
theorem regfile_loop_unfold (e : Env) (i : Int) (w : World) :
    regfile_loop e i.toNat i w =
      if i > 0 then
        if e.ret w.trace Call.block_read ≠ T_BLOCKSIZE then
          (-1, ((if e.ret w.trace Call.block_read ≠ -1
            then { (tar_block_read e w).2 with errno := EINVAL }
            else (tar_block_read e w).2).call e Call.file_delete).2)
        else
          if e.ret (tar_block_read e w).2.trace (Call.file_write
              ((e.block w.trace).take (if i > T_BLOCKSIZE then T_BLOCKSIZE else i).toNat)) < 0
          then (-1, (((tar_block_read e w).2.call e (Call.file_write
              ((e.block w.trace).take
                (if i > T_BLOCKSIZE then T_BLOCKSIZE else i).toNat))).2.call e
                  Call.file_delete).2)
          else regfile_loop e (i - T_BLOCKSIZE).toNat (i - T_BLOCKSIZE)
            ((tar_block_read e w).2.call e (Call.file_write
              ((e.block w.trace).take (if i > T_BLOCKSIZE then T_BLOCKSIZE else i).toNat))).2
      else regfile_close e w := by
  by_cases hi : i > 0
  · obtain ⟨m, hm⟩ : ∃ m, i.toNat = m + 1 := ⟨i.toNat - 1, by omega⟩
    have h3 : (i - T_BLOCKSIZE).toNat ≤ m := by simp only [T_BLOCKSIZE]; omega
    rw [hm, regfile_loop_succ, regfile_loop_fuel e m _ _ h3]
  · rw [regfile_loop_done e _ i w hi, if_neg hi]

theorem regfile_close_trace (e : Env) (w : World) :
    ∃ evs, (regfile_close e w).2.trace = w.trace ++ evs ∧ blockReads evs = [] ∧
      writes evs = [] := by
  simp only [regfile_close]
  split_ifs
  · exact ⟨[⟨Call.file_close, _, []⟩], rfl, rfl, rfl⟩
  · exact ⟨[⟨Call.file_close, _, []⟩, ⟨Call.file_delete, _, []⟩],
      List.append_assoc _ _ _, rfl, rfl⟩

theorem regfile_close_errno (e : Env) (w : World) :
    (regfile_close e w).2.errno = w.errno := by
  simp only [regfile_close]
  split_ifs <;> rfl

theorem ReadsShape_of_no_reads (evs : List Event) (res errno : Int)
    (h : blockReads evs = []) : ReadsShape evs res errno := by
  left
  simp [h]

theorem ReadsShape_cons (ev : Event) (evs : List Event) (res errno : Int)
    (hev : ev.call ≠ Call.block_read) (hw : ∀ b, ev.call ≠ Call.file_write b)
    (h : ReadsShape evs res errno) : ReadsShape (ev :: evs) res errno := by
  have hr : blockReads (ev :: evs) = blockReads evs := by simp [hev]
  have hwr : writes (ev :: evs) = writes evs := by
    obtain ⟨c, r, d⟩ := ev
    cases c <;> first | rfl | exact absurd rfl (hw _)
  unfold ReadsShape
  rw [hr, hwr]
  exact h

theorem ReadsShape_read_write (r : Int) (d bytes : List Nat) (evs : List Event)
    (res errno : Int) (h : ReadsShape evs res errno) :
    ReadsShape (⟨Call.block_read, 512, d⟩ :: ⟨Call.file_write bytes, r, []⟩ :: evs)
      res errno := by
  rcases h with h | ⟨m, k, hk1, hk2, hk3, hk4, hk5⟩
  · left
    intro x hx
    simp at hx
    rcases hx with hx | hx
    · exact hx
    · exact h x hx
  · right
    refine ⟨m + 1, k, hk1, ?_, ?_, hk4, hk5⟩
    · simp [hk2, List.replicate_succ]
    · simp [writes, List.filterMap_cons] at hk3 ⊢
      exact hk3

/-- The reads of the copy loop always have the shape `ReadsShape`. -/
theorem regfile_loop_shape (e : Env) (fuel : Nat) (i : Int) (w : World) :
    ∃ evs, (regfile_loop e fuel i w).2.trace = w.trace ++ evs ∧
      ReadsShape evs (regfile_loop e fuel i w).1 (regfile_loop e fuel i w).2.errno := by
  induction fuel generalizing i w with
  | zero =>
    obtain ⟨evs, h1, h2, _⟩ := regfile_close_trace e w
    exact ⟨evs, h1, ReadsShape_of_no_reads _ _ _ h2⟩
  | succ n ih =>
    by_cases hi : i > 0
    · by_cases hk : e.ret w.trace Call.block_read = T_BLOCKSIZE
      · by_cases hw : e.ret (tar_block_read e w).2.trace (Call.file_write
          ((e.block w.trace).take (if i > T_BLOCKSIZE then T_BLOCKSIZE else i).toNat)) < 0
        · rw [regfile_loop_write_fail e n i w hi hk hw]
          simp only [call_trace, tar_block_read_trace, List.append_assoc,
            List.append_cancel_left_eq, exists_eq_left']
          left; simp [hk, T_BLOCKSIZE]
        · rw [regfile_loop_step e n i w hi hk hw]
          obtain ⟨evs, h1, h2⟩ := ih (i - T_BLOCKSIZE)
            ((tar_block_read e w).2.call e (Call.file_write
              ((e.block w.trace).take (if i > T_BLOCKSIZE then T_BLOCKSIZE else i).toNat))).2
          refine ⟨⟨Call.block_read, 512, e.block w.trace⟩ :: ⟨Call.file_write
            ((e.block w.trace).take (if i > T_BLOCKSIZE then T_BLOCKSIZE else i).toNat),
            e.ret (tar_block_read e w).2.trace (Call.file_write
            ((e.block w.trace).take (if i > T_BLOCKSIZE then T_BLOCKSIZE else i).toNat)), []⟩ ::
            evs, ?_, ReadsShape_read_write _ _ _ _ _ _ h2⟩
          rw [h1]
          simp only [call_trace, tar_block_read_trace, List.append_assoc, hk, T_BLOCKSIZE]
          rfl
      · rw [regfile_loop_read_fail e n i w hi hk]
        by_cases hk1 : e.ret w.trace Call.block_read = -1
        · simp only [hk1, ne_eq, not_true, if_false, call_trace, tar_block_read_trace,
            List.append_assoc, List.append_cancel_left_eq, exists_eq_left']
          right
          exact ⟨0, -1, by decide, by simp, rfl, rfl, fun h => absurd rfl h⟩
        · simp only [hk1, ne_eq, not_false_eq_true, if_true, call_trace,
            tar_block_read_trace, List.append_assoc, List.append_cancel_left_eq,
            exists_eq_left']
          right
          refine ⟨0, e.ret w.trace Call.block_read, ?_, by simp, rfl, rfl, ?_⟩
          · simpa [T_BLOCKSIZE] using hk
          · intro _
            simp only [call_errno]
    · rw [regfile_loop_done e _ i w hi]
      obtain ⟨evs, h1, h2, _⟩ := regfile_close_trace e w
      exact ⟨evs, h1, ReadsShape_of_no_reads _ _ _ h2⟩

/-- The reads of `tar_extract_regfile` always have the shape `ReadsShape`. -/
theorem tar_extract_regfile_shape (e : Env) (t : TAR) (realname : Option CStr) (w : World) :
    ∃ evs, (tar_extract_regfile e t realname w).2.trace = w.trace ++ evs ∧
      ReadsShape evs (tar_extract_regfile e t realname w).1
        (tar_extract_regfile e t realname w).2.errno := by
  simp only [tar_extract_regfile]
  split_ifs
  · exact ⟨[], by simp, ReadsShape_of_no_reads _ _ _ rfl⟩
  · exact ⟨[⟨Call.mkdirhier _, _, []⟩], rfl, ReadsShape_of_no_reads _ _ _ rfl⟩
  · simp only [call_trace, List.append_assoc, List.append_cancel_left_eq, exists_eq_left']
    exact ReadsShape_of_no_reads _ _ _ rfl
  · simp only [call_trace, List.append_assoc, List.append_cancel_left_eq, exists_eq_left']
    exact ReadsShape_of_no_reads _ _ _ rfl
  · obtain ⟨evs, h1, h2⟩ := regfile_loop_shape e (int_of_size_t t.size).toNat
      (int_of_size_t t.size) (((w.call e (Call.mkdirhier (realname.getD t.pathname))).2.call e
        (Call.fs_open (realname.getD t.pathname))).2.call e Call.file_error).2
    rw [h1]
    simp only [call_trace, List.append_assoc, List.append_cancel_left_eq, exists_eq_left']
    exact ReadsShape_cons _ _ _ _ (by simp) (by simp) (ReadsShape_cons _ _ _ _ (by simp)
        (by simp) (ReadsShape_cons _ _ _ _ (by simp) (by simp) h2))

/-- In a run of shape `ReadsShape`, a read that did not return a full block is the last
read, all reads before it returned full blocks, and the run failed. -/
theorem ReadsShape_short_read (evs : List Event) (res errno : Int) (j : Nat) (k : Int)
    (h : ReadsShape evs res errno) (hk : (blockReads evs)[j]? = some k) (hne : k ≠ 512) :
    blockReads evs = List.replicate j 512 ++ [k] ∧ (writes evs).length = j ∧ res = -1 ∧
      (k ≠ -1 → errno = EINVAL) := by
  rcases h with h | ⟨m, k1, hk1, hk2, hk3, hk4, hk5⟩
  · exact absurd (h k (List.getElem?_mem hk)) hne
  · rw [hk2] at hk
    rcases Nat.lt_trichotomy j m with hlt | heq | hgt
    · rw [List.getElem?_append_left (by simpa using hlt)] at hk
      rw [List.getElem?_replicate] at hk
      simp [hlt] at hk
      exact absurd hk.symm hne
    · subst heq
      rw [List.getElem?_append_right (by simp)] at hk
      simp at hk
      subst hk
      exact ⟨hk2, hk3, hk4, hk5⟩
    · rw [List.getElem?_append_right (by simp; omega)] at hk
      have hlen : ([k1] : List Int).length ≤ j - (List.replicate m (512 : Int)).length := by
        simp; omega
      rw [List.getElem?_eq_none hlen] at hk
      exact absurd hk (by simp)

/-! ## The dispatcher, step by step -/

theorem tar_extract_file_of_overwrite (e : Env) (t : TAR) (realname : Option CStr) (w : World)
    (hopt : t.options &&& TAR_NOOVERWRITE = 0) :
    tar_extract_file e t realname w = tar_extract_file_body e t realname w := by
  simp [tar_extract_file, hopt]

theorem tar_extract_file_body_of_ne_zero (e : Env) (t : TAR) (realname : Option CStr)
    (w : World) (i : Int) (hsw : (tar_extract_file_switch e t realname w).1 = some i)
    (hi : i ≠ 0) :
    tar_extract_file_body e t realname w =
      (some i, (tar_extract_file_switch e t realname w).2) := by
  simp [tar_extract_file_body, hsw, hi]

theorem tar_extract_file_body_of_zero (e : Env) (t : TAR) (realname : Option CStr)
    (w : World) (hsw : (tar_extract_file_switch e t realname w).1 = some 0) :
    tar_extract_file_body e t realname w =
      tar_extract_file_record e t realname
        ((tar_extract_file_switch e t realname w).2.calls e
          [Call.fs_chown (realname.getD t.pathname) t.uid t.gid,
           Call.fs_chmod (realname.getD t.pathname) (t.mode &&& 0o7777)]) := by
  simp [tar_extract_file_body, hsw, tar_set_file_perms]

theorem tar_extract_file_record_ok (e : Env) (t : TAR) (real : CStr) (w : World)
    (hcalloc : e.ret w.trace Call.calloc ≠ 0)
    (hadd : e.ret (w.calls e [Call.calloc]).trace
      (Call.hash_add ⟨t.pathname.take 4095, real.take 4095⟩) = 0) :
    tar_extract_file_record e t (some real) w =
      (some 0, { w.calls e [Call.calloc, Call.hash_add ⟨t.pathname.take 4095, real.take 4095⟩]
        with table := w.table ++ [⟨t.pathname.take 4095, real.take 4095⟩] }) := by
  simp only [calls_cons, calls_nil, call_trace] at hadd
  simp [tar_extract_file_record, libtar_hash_add, hcalloc, hadd]

theorem tar_extract_file_switch_dir (e : Env) (t : TAR) (realname : Option CStr) (w : World)
    (hdir : t.isdir = true) :
    tar_extract_file_switch e t realname w =
      (some (if (tar_extract_dir e t realname w).1 = 1 then 0
        else (tar_extract_dir e t realname w).1), (tar_extract_dir e t realname w).2) := by
  simp [tar_extract_file_switch, hdir]

/-! ## The link table is written by the dispatcher only -/

theorem regfile_close_table (e : Env) (w : World) :
    (regfile_close e w).2.table = w.table := by
  simp only [regfile_close]
  split_ifs <;> rfl

theorem regfile_loop_table (e : Env) (fuel : Nat) (i : Int) (w : World) :
    (regfile_loop e fuel i w).2.table = w.table := by
  induction fuel generalizing i w with
  | zero => exact regfile_close_table e w
  | succ n ih =>
    simp only [regfile_loop]
    split_ifs <;> first | rfl | (rw [ih]; rfl) | exact regfile_close_table e w

theorem tar_extract_regfile_table (e : Env) (t : TAR) (realname : Option CStr) (w : World) :
    (tar_extract_regfile e t realname w).2.table = w.table := by
  simp only [tar_extract_regfile]
  split_ifs <;> first | rfl | (rw [regfile_loop_table]; rfl)

theorem tar_extract_dir_table (e : Env) (t : TAR) (realname : Option CStr) (w : World) :
    (tar_extract_dir e t realname w).2.table = w.table := by
  simp only [tar_extract_dir]
  split_ifs <;> rfl

theorem tar_extract_hardlink_table (e : Env) (t : TAR) (realname : Option CStr) (w : World) :
    (tar_extract_hardlink e t realname w).2.table = w.table := by
  simp only [tar_extract_hardlink]
  split_ifs <;> rfl

theorem tar_extract_symlink_table (e : Env) (t : TAR) (realname : Option CStr) (w : World) :
    (tar_extract_symlink e t realname w).2.table = w.table := by
  simp only [tar_extract_symlink]
  split_ifs <;> rfl

theorem tar_extract_file_switch_table (e : Env) (t : TAR) (realname : Option CStr)
    (w : World) : (tar_extract_file_switch e t realname w).2.table = w.table := by
  simp only [tar_extract_file_switch]
  split_ifs <;> first
    | exact tar_extract_dir_table e t realname w
    | exact tar_extract_hardlink_table e t realname w
    | exact tar_extract_symlink_table e t realname w
    | exact tar_extract_regfile_table e t realname w
    | rfl

/-- What the end of the dispatcher does with the table: a defined result `0` appends
the record made of the pathname and of the destination it was given, anything else
leaves the table alone. -/
theorem tar_extract_file_record_table (e : Env) (t : TAR) (realname : Option CStr)
    (w : World) :
    (tar_extract_file_record e t realname w).2.table =
      if (tar_extract_file_record e t realname w).1 = some 0 then
        w.table ++ [⟨t.pathname.take 4095, (realname.getD []).take 4095⟩]
      else w.table := by
  cases realname with
  | none =>
    simp only [tar_extract_file_record]
    split_ifs <;> simp_all
  | some real =>
    simp only [tar_extract_file_record, libtar_hash_add, Option.getD_some]
    split_ifs <;> simp_all

theorem tar_extract_file_body_table (e : Env) (t : TAR) (realname : Option CStr)
    (w : World) :
    (tar_extract_file_body e t realname w).2.table =
      if (tar_extract_file_body e t realname w).1 = some 0 then
        w.table ++ [⟨t.pathname.take 4095, (realname.getD []).take 4095⟩]
      else w.table := by
  cases hsw : (tar_extract_file_switch e t realname w).1 with
  | none =>
    have : tar_extract_file_body e t realname w =
        (none, (tar_extract_file_switch e t realname w).2) := by
      simp [tar_extract_file_body, hsw]
    simp [this, tar_extract_file_switch_table]
  | some i =>
    by_cases hi : i = 0
    · subst hi
      rw [tar_extract_file_body_of_zero e t realname w hsw, tar_extract_file_record_table]
      simp [tar_extract_file_switch_table]
    · rw [tar_extract_file_body_of_ne_zero e t realname w i hsw hi]
      simp [hi, tar_extract_file_switch_table]

/-- The link table after `tar_extract_file`: one record appended when the result is
`0`, unchanged otherwise. -/
theorem tar_extract_file_table (e : Env) (t : TAR) (realname : Option CStr) (w : World) :
    (tar_extract_file e t realname w).2.table =
      if (tar_extract_file e t realname w).1 = some 0 then
        w.table ++ [⟨t.pathname.take 4095, (realname.getD []).take 4095⟩]
      else w.table := by
  simp only [tar_extract_file]
  split_ifs with h1 h2 h3 h4 h5
  all_goals first
    | (rw [tar_extract_file_body_table]; simp_all)
    | simp_all

/-! ## Block reads happen in the regular-file extractor only -/

theorem tar_extract_dir_reads (e : Env) (t : TAR) (realname : Option CStr) (w : World) :
    ∃ evs, (tar_extract_dir e t realname w).2.trace = w.trace ++ evs ∧
      blockReads evs = [] := by
  simp only [tar_extract_dir]
  split_ifs <;> simp [blockReads]

theorem tar_extract_hardlink_reads (e : Env) (t : TAR) (realname : Option CStr) (w : World) :
    ∃ evs, (tar_extract_hardlink e t realname w).2.trace = w.trace ++ evs ∧
      blockReads evs = [] := by
  simp only [tar_extract_hardlink]
  split_ifs <;> simp [blockReads]

theorem tar_extract_symlink_reads (e : Env) (t : TAR) (realname : Option CStr) (w : World) :
    ∃ evs, (tar_extract_symlink e t realname w).2.trace = w.trace ++ evs ∧
      blockReads evs = [] := by
  simp only [tar_extract_symlink]
  split_ifs <;> simp [blockReads]

theorem tar_extract_file_record_reads (e : Env) (t : TAR) (realname : Option CStr)
    (w : World) :
    ∃ evs, (tar_extract_file_record e t realname w).2.trace = w.trace ++ evs ∧
      blockReads evs = [] := by
  cases realname with
  | none =>
    simp only [tar_extract_file_record]
    split_ifs <;> simp [blockReads]
  | some real =>
    simp only [tar_extract_file_record, libtar_hash_add]
    split_ifs <;> simp [blockReads]

/-- The reads of the switchboard have the shape `ReadsShape`: only the regular-file
extractor reads blocks. -/
theorem tar_extract_file_switch_shape (e : Env) (t : TAR) (realname : Option CStr)
    (w : World) :
    ∃ evs, (tar_extract_file_switch e t realname w).2.trace = w.trace ++ evs ∧
      ReadsShape evs ((tar_extract_file_switch e t realname w).1.getD 0)
        (tar_extract_file_switch e t realname w).2.errno := by
  simp only [tar_extract_file_switch]
  split_ifs
  · obtain ⟨evs, h1, h2⟩ := tar_extract_dir_reads e t realname w
    exact ⟨evs, h1, ReadsShape_of_no_reads _ _ _ h2⟩
  · obtain ⟨evs, h1, h2⟩ := tar_extract_dir_reads e t realname w
    exact ⟨evs, h1, ReadsShape_of_no_reads _ _ _ h2⟩
  · obtain ⟨evs, h1, h2⟩ := tar_extract_hardlink_reads e t realname w
    exact ⟨evs, h1, ReadsShape_of_no_reads _ _ _ h2⟩
  · obtain ⟨evs, h1, h2⟩ := tar_extract_symlink_reads e t realname w
    exact ⟨evs, h1, ReadsShape_of_no_reads _ _ _ h2⟩
  · exact ⟨[⟨Call.warning, _, []⟩], rfl, ReadsShape_of_no_reads _ _ _ rfl⟩
  · exact ⟨[⟨Call.warning, _, []⟩], rfl, ReadsShape_of_no_reads _ _ _ rfl⟩
  · exact ⟨[⟨Call.warning, _, []⟩], rfl, ReadsShape_of_no_reads _ _ _ rfl⟩
  · exact tar_extract_regfile_shape e t realname w

theorem ReadsShape_append_of_zero (evs more : List Event) (errno errno2 : Int) (res : Int)
    (h : ReadsShape evs 0 errno) (hmore : blockReads more = []) :
    ReadsShape (evs ++ more) res errno2 := by
  rcases h with h | ⟨m, k, _, _, _, h4, _⟩
  · left
    simpa [hmore] using h
  · exact absurd h4 (by decide)

/-- The reads of the dispatcher past the overwrite check have the shape `ReadsShape`. -/
theorem tar_extract_file_body_shape (e : Env) (t : TAR) (realname : Option CStr)
    (w : World) :
    ∃ evs, (tar_extract_file_body e t realname w).2.trace = w.trace ++ evs ∧
      ReadsShape evs ((tar_extract_file_body e t realname w).1.getD 0)
        (tar_extract_file_body e t realname w).2.errno := by
  obtain ⟨evs, h1, h2⟩ := tar_extract_file_switch_shape e t realname w
  cases hsw : (tar_extract_file_switch e t realname w).1 with
  | none =>
    have hb : tar_extract_file_body e t realname w =
        (none, (tar_extract_file_switch e t realname w).2) := by
      simp [tar_extract_file_body, hsw]
    rw [hb]
    rw [hsw] at h2
    exact ⟨evs, h1, h2⟩
  | some i =>
    by_cases hi : i = 0
    · subst hi
      rw [tar_extract_file_body_of_zero e t realname w hsw]
      rw [hsw] at h2
      obtain ⟨more, h3, h4⟩ := tar_extract_file_record_reads e t realname
        ((tar_extract_file_switch e t realname w).2.calls e
          [Call.fs_chown (realname.getD t.pathname) t.uid t.gid,
           Call.fs_chmod (realname.getD t.pathname) (t.mode &&& 0o7777)])
      rw [h3]
      simp only [calls_cons, calls_nil, call_trace, h1, List.append_assoc,
        List.append_cancel_left_eq, exists_eq_left']
      exact ReadsShape_append_of_zero _ _ _ _ _ h2 (by simpa using h4)
    · rw [tar_extract_file_body_of_ne_zero e t realname w i hsw hi]
      rw [hsw] at h2
      exact ⟨evs, h1, h2⟩

/-- The reads of `tar_extract_file` have the shape `ReadsShape`. -/
theorem tar_extract_file_shape (e : Env) (t : TAR) (realname : Option CStr) (w : World) :
    ∃ evs, (tar_extract_file e t realname w).2.trace = w.trace ++ evs ∧
      ReadsShape evs ((tar_extract_file e t realname w).1.getD 0)
        (tar_extract_file e t realname w).2.errno := by
  simp only [tar_extract_file]
  split_ifs
  · exact ⟨[⟨Call.fs_lstat realname, _, []⟩], rfl, ReadsShape_of_no_reads _ _ _ rfl⟩
  · obtain ⟨evs, h1, h2⟩ := tar_extract_file_body_shape e t realname
      (w.call e (Call.fs_lstat realname)).2
    rw [h1]
    simp only [call_trace, List.append_assoc, List.append_cancel_left_eq, exists_eq_left']
    exact ReadsShape_cons _ _ _ _ (by simp) (by simp) h2
  · exact tar_extract_file_body_shape e t realname w

/-! ## Overwrite protection -/

/-- Claim C2: with `TAR_NOOVERWRITE` set, when the `lstat` the dispatcher issues on the
destination it was given returns anything but `-ENOENT`, `tar_extract_file` returns `-1`
with `errno = EEXIST`; that `lstat` is the only call it made (so no mutating filesystem
call and no block read) and the link table is unchanged. -/
theorem tar_extract_file_nooverwrite (e : Env) (t : TAR) (realname : Option CStr) (w : World)
    (hopt : t.options &&& TAR_NOOVERWRITE ≠ 0)
    (hstat : e.ret w.trace (Call.fs_lstat realname) ≠ -ENOENT) :
    (tar_extract_file e t realname w).1 = some (-1) ∧
    (tar_extract_file e t realname w).2.errno = EEXIST ∧
    (tar_extract_file e t realname w).2.trace = (w.calls e [Call.fs_lstat realname]).trace ∧
    (∀ ev ∈ newEvents w (tar_extract_file e t realname w).2,
      ev.call.mutating = false ∧ ev.call ≠ Call.block_read) ∧
    (tar_extract_file e t realname w).2.table = w.table := by
  simp [tar_extract_file, hopt, hstat, Call.mutating, newEvents]

/-- Witness for `tar_extract_file_nooverwrite`: the destination exists (`lstat` returns
`0`) and the option is set. -/
theorem tar_extract_file_nooverwrite_witness :
    (tar_extract_file okEnv (baseHdr 4) (some [100]) w0).1 = some (-1) ∧
    (tar_extract_file okEnv (baseHdr 4) (some [100]) w0).2.errno = EEXIST ∧
    (tar_extract_file okEnv (baseHdr 4) (some [100]) w0).2.trace =
      [⟨Call.fs_lstat (some [100]), 0, []⟩] ∧
    (tar_extract_file okEnv (baseHdr 4) (some [100]) w0).2.table = [] :=
  have h := tar_extract_file_nooverwrite okEnv (baseHdr 4) (some [100]) w0
    (by decide) (by decide)
  ⟨h.1, h.2.1, h.2.2.1, h.2.2.2.2⟩

/-! ## Regular files: the copy -/

theorem CopyOf_zero (evs : List Event) (hr : blocksRead evs = []) (hw : writes evs = []) :
    CopyOf 0 evs := by
  simp [CopyOf, hr, hw]

theorem CopyOf_last (n : Nat) (d : List Nat) (k r : Int) (evs : List Event)
    (hn : 0 < n) (hn2 : n ≤ 512) (hd : d.length = 512)
    (hr : blocksRead evs = []) (hw : writes evs = []) :
    CopyOf n (⟨Call.block_read, k, d⟩ :: ⟨Call.file_write (d.take n), r, []⟩ :: evs) := by
  have hw2 : writes (⟨Call.block_read, k, d⟩ :: ⟨Call.file_write (d.take n), r, []⟩ :: evs)
      = [d.take n] := by
    show writes (⟨Call.file_write (d.take n), r, []⟩ :: evs) = _
    rw [writes_cons_write, hw]
  refine ⟨?_, ?_, ?_, ?_⟩
  · rw [hw2]; simp [hr]
  · simp [hr]; omega
  · simp [hr, hd]
  · rw [hw2]
    simp only [List.map_cons, List.map_nil, List.length_take, hd]
    rcases Nat.lt_or_ge n 512 with h | h
    · have h1 : n / 512 = 0 := by omega
      have h2 : n % 512 = n := by omega
      have h3 : ¬ n = 0 := by omega
      simp [h1, h2, h3]
      omega
    · have h0 : n = 512 := by omega
      subst h0
      simp

theorem CopyOf_step (n : Nat) (d : List Nat) (k r : Int) (evs : List Event)
    (hn : 512 < n) (hd : d.length = 512) (h : CopyOf (n - 512) evs) :
    CopyOf n (⟨Call.block_read, k, d⟩ :: ⟨Call.file_write (d.take 512), r, []⟩ :: evs) := by
  obtain ⟨h1, h2, h3, h4⟩ := h
  have hw2 : writes (⟨Call.block_read, k, d⟩ :: ⟨Call.file_write (d.take 512), r, []⟩ :: evs)
      = d :: writes evs := by
    show writes (⟨Call.file_write (d.take 512), r, []⟩ :: evs) = _
    rw [writes_cons_write, List.take_of_length_le (by omega)]
  refine ⟨?_, ?_, ?_, ?_⟩
  · rw [hw2]
    simp only [blocksRead_cons, if_true, List.singleton_append, List.flatten_cons,
      reduceCtorEq, if_false, List.nil_append]
    rw [List.take_append_eq_append_take, List.take_of_length_le (by omega), hd, h1]
  · simp [h2]; omega
  · intro b hb
    simp at hb
    rcases hb with hb | hb
    · rw [hb]; exact hd
    · exact h3 b hb
  · rw [hw2]
    simp only [List.map_cons, h4, hd]
    have e1 : n / 512 = (n - 512) / 512 + 1 := by omega
    have e2 : (n - 512) % 512 = n % 512 := by omega
    rw [e1, e2, List.replicate_succ]
    rfl

/-- The copy loop with `n` bytes left: when the next `⌈n/512⌉` block reads deliver full
blocks and every write and the close succeed, the loop and the tail of the function
return `0` and the new events are a copy of `n` bytes. -/
theorem regfile_loop_copy (e : Env) (fuel n : Nat) (w : World) (hfuel : n ≤ fuel)
    (hread : ∀ h, (blockReads h).length < (blockReads w.trace).length + (n + 511) / 512 →
      e.ret h Call.block_read = 512 ∧ (e.block h).length = 512)
    (hwrite : ∀ h bytes, 0 ≤ e.ret h (Call.file_write bytes))
    (hclose : ∀ h, 0 ≤ e.ret h Call.file_close) :
    (regfile_loop e fuel (n : Int) w).1 = 0 ∧
    ∃ evs, (regfile_loop e fuel (n : Int) w).2.trace = w.trace ++ evs ∧ CopyOf n evs := by
  have hclose_ok : ∀ w1 : World, (regfile_close e w1).1 = 0 ∧
      ∃ evs, (regfile_close e w1).2.trace = w1.trace ++ evs ∧ blocksRead evs = [] ∧
        writes evs = [] := by
    intro w1
    have hc : regfile_close e w1 =
        (0, ((w1.call e Call.file_close).2.call e Call.file_delete).2) := by
      simp only [regfile_close, call_fst, if_neg (not_lt.mpr (hclose w1.trace))]
    rw [hc]
    exact ⟨rfl, [⟨Call.file_close, _, []⟩, ⟨Call.file_delete, _, []⟩],
      List.append_assoc _ _ _, rfl, rfl⟩
  induction fuel generalizing n w with
  | zero =>
    obtain rfl : n = 0 := by omega
    obtain ⟨h1, evs, h2, h3, h4⟩ := hclose_ok w
    exact ⟨h1, evs, h2, CopyOf_zero evs h3 h4⟩
  | succ f ih =>
    rcases Nat.eq_zero_or_pos n with h0 | hpos
    · subst h0
      rw [regfile_loop_done e _ _ w (by simp)]
      obtain ⟨h1, evs, h2, h3, h4⟩ := hclose_ok w
      exact ⟨h1, evs, h2, CopyOf_zero evs h3 h4⟩
    · have hi : (n : Int) > 0 := by omega
      obtain ⟨hk, hd⟩ := hread w.trace (by omega)
      have hw : ¬ e.ret (tar_block_read e w).2.trace (Call.file_write
          ((e.block w.trace).take
            (if (n : Int) > T_BLOCKSIZE then T_BLOCKSIZE else (n : Int)).toNat)) < 0 :=
        not_lt.mpr (hwrite _ _)
      rw [regfile_loop_step e f n w hi hk hw]
      rcases Nat.lt_or_ge 512 n with hbig | hsmall
      · have hcast : (n : Int) - T_BLOCKSIZE = ((n - 512 : Nat) : Int) := by
          simp only [T_BLOCKSIZE]; omega
        have hgt : (n : Int) > T_BLOCKSIZE := by simp only [T_BLOCKSIZE]; omega
        rw [hcast, if_pos hgt]
        have hcnt : (blockReads ((tar_block_read e w).2.call e (Call.file_write
            ((e.block w.trace).take T_BLOCKSIZE.toNat))).2.trace).length =
            (blockReads w.trace).length + 1 := by
          simp
        obtain ⟨h1, evs, h2, h3⟩ := ih (n - 512) ((tar_block_read e w).2.call e
          (Call.file_write ((e.block w.trace).take T_BLOCKSIZE.toNat))).2 (by omega)
          (fun h hh => hread h (by rw [hcnt] at hh; omega))
        refine ⟨h1, ?_⟩
        rw [h2]
        simp only [call_trace, tar_block_read_trace, List.append_assoc,
          List.append_cancel_left_eq, exists_eq_left']
        exact CopyOf_step n _ _ _ evs hbig hd h3
      · have hle : ¬ ((n : Int) - T_BLOCKSIZE > 0) := by simp only [T_BLOCKSIZE]; omega
        have hgt : ¬ (n : Int) > T_BLOCKSIZE := by simp only [T_BLOCKSIZE]; omega
        rw [regfile_loop_done e _ _ _ hle, if_neg hgt]
        obtain ⟨h1, evs, h2, h3, h4⟩ := hclose_ok ((tar_block_read e w).2.call e
          (Call.file_write ((e.block w.trace).take (n : Int).toNat))).2
        refine ⟨h1, ?_⟩
        rw [h2]
        simp only [call_trace, tar_block_read_trace, List.append_assoc,
          List.append_cancel_left_eq, exists_eq_left', Int.toNat_ofNat]
        exact CopyOf_last n _ _ _ evs hpos hsmall hd h3 h4

theorem CopyOf_cons (n : Nat) (ev : Event) (evs : List Event)
    (hev : ev.call ≠ Call.block_read) (hw : ∀ b, ev.call ≠ Call.file_write b)
    (h : CopyOf n evs) : CopyOf n (ev :: evs) := by
  have hr : blocksRead (ev :: evs) = blocksRead evs := by simp [hev]
  have hwr : writes (ev :: evs) = writes evs := by
    obtain ⟨c, r, d⟩ := ev
    cases c <;> first | rfl | exact absurd rfl (hw _)
  unfold CopyOf
  rw [hr, hwr]
  exact h

theorem int_of_size_t_small (n : Nat) (h : n ≤ 2 ^ 31 - 1) : int_of_size_t n = (n : Int) := by
  have h1 : n % 2 ^ 32 = n := Nat.mod_eq_of_lt (by omega)
  have h2 : n < 2 ^ 31 := by omega
  simp only [int_of_size_t, h1, h2, if_true]

/-- Claim C1: for a regular-file header of size `S ≤ 2^31 - 1`, when `mkdirhier` and the
open succeed, the next `⌈S/512⌉` block reads each deliver a full 512-byte block, and
every write and the close succeed, `tar_extract_regfile` returns `0`; the bytes handed
to `write`, concatenated in call order, are the first `S` bytes of the concatenation of
the blocks read; exactly `⌈S/512⌉` blocks were read; the writes are `S / 512` writes of
512 bytes followed, when `S` is not a multiple of 512, by one write of `S % 512` bytes;
and for `S = 0` nothing is read or written. -/
theorem tar_extract_regfile_roundtrip (e : Env) (t : TAR) (realname : Option CStr) (w : World)
    (hreg : t.isreg = true) (hsize : t.size ≤ 2 ^ 31 - 1)
    (hmk : e.ret w.trace (Call.mkdirhier (realname.getD t.pathname)) ≠ -1)
    (hopen : e.ret (w.calls e [Call.mkdirhier (realname.getD t.pathname)]).trace
      (Call.fs_open (realname.getD t.pathname)) ≠ 0)
    (herr : e.ret (w.calls e [Call.mkdirhier (realname.getD t.pathname),
      Call.fs_open (realname.getD t.pathname)]).trace Call.file_error = 0)
    (hread : ∀ h, (blockReads h).length < (blockReads w.trace).length + (t.size + 511) / 512 →
      e.ret h Call.block_read = 512 ∧ (e.block h).length = 512)
    (hwrite : ∀ h bytes, 0 ≤ e.ret h (Call.file_write bytes))
    (hclose : ∀ h, 0 ≤ e.ret h Call.file_close) :
    (tar_extract_regfile e t realname w).1 = 0 ∧
    (writes (newEvents w (tar_extract_regfile e t realname w).2)).flatten =
      ((blocksRead (newEvents w (tar_extract_regfile e t realname w).2)).flatten).take t.size ∧
    (blocksRead (newEvents w (tar_extract_regfile e t realname w).2)).length =
      (t.size + 511) / 512 ∧
    (∀ b ∈ blocksRead (newEvents w (tar_extract_regfile e t realname w).2), b.length = 512) ∧
    (writes (newEvents w (tar_extract_regfile e t realname w).2)).map List.length =
      List.replicate (t.size / 512) 512 ++ (if t.size % 512 = 0 then [] else [t.size % 512]) ∧
    (t.size = 0 →
      blocksRead (newEvents w (tar_extract_regfile e t realname w).2) = [] ∧
      writes (newEvents w (tar_extract_regfile e t realname w).2) = []) := by
  simp only [calls_cons, calls_nil, call_trace] at hopen herr
  have hrun : tar_extract_regfile e t realname w =
      regfile_loop e t.size (t.size : Int)
        (((w.call e (Call.mkdirhier (realname.getD t.pathname))).2.call e
          (Call.fs_open (realname.getD t.pathname))).2.call e Call.file_error).2 := by
    simp only [tar_extract_regfile, hreg, Bool.not_true, Bool.false_eq_true, if_false,
      call_fst, call_trace, hmk, hopen, herr, ne_eq, not_true, int_of_size_t_small t.size hsize,
      Int.toNat_ofNat]
  obtain ⟨h1, evs, h2, h3⟩ := regfile_loop_copy e t.size t.size
    (((w.call e (Call.mkdirhier (realname.getD t.pathname))).2.call e
      (Call.fs_open (realname.getD t.pathname))).2.call e Call.file_error).2 (le_refl _)
    (fun h hh => hread h (by simpa using hh)) hwrite hclose
  have hcopy : CopyOf t.size (newEvents w (tar_extract_regfile e t realname w).2) := by
    rw [hrun]
    simp only [newEvents, h2, call_trace, List.append_assoc, List.drop_left]
    exact CopyOf_cons _ _ _ (by simp) (by simp) (CopyOf_cons _ _ _ (by simp) (by simp)
      (CopyOf_cons _ _ _ (by simp) (by simp) h3))
  obtain ⟨c1, c2, c3, c4⟩ := hcopy
  refine ⟨by rw [hrun]; exact h1, c1, c2, c3, c4, fun h0 => ?_⟩
  rw [h0] at c2 c4
  exact ⟨List.length_eq_zero.mp c2, by simpa using c4⟩

/-- Witness for `tar_extract_regfile_roundtrip`: a file of 513 bytes, every call
succeeding; two blocks are read, 512 bytes and then 1 byte are written. -/
theorem tar_extract_regfile_roundtrip_witness :
    (tar_extract_regfile okEnv (regHdr 513) (some [100]) w0).1 = 0 ∧
    (writes (newEvents w0 (tar_extract_regfile okEnv (regHdr 513) (some [100]) w0).2)).flatten =
      ((blocksRead (newEvents w0
        (tar_extract_regfile okEnv (regHdr 513) (some [100]) w0).2)).flatten).take 513 ∧
    (writes (newEvents w0
      (tar_extract_regfile okEnv (regHdr 513) (some [100]) w0).2)).map List.length =
      [512, 1] :=
  have h := tar_extract_regfile_roundtrip okEnv (regHdr 513) (some [100]) w0 (by decide)
    (by decide) (by decide) (by decide) (by decide)
    (fun _ _ => ⟨rfl, List.length_replicate 512 7⟩) (fun _ _ => le_refl _) (fun _ => le_refl _)
  ⟨h.1, h.2.1, h.2.2.2.2.1⟩

/-! ## Regular files: a corrupt stream -/

/-- The copy loop with `n` bytes left reaches its `(j+1)`-th block read when
`j < ⌈n/512⌉`, the reads before it deliver full blocks and the writes succeed; the value
of that read is then found at position `j` of the reads of the run. -/
theorem regfile_loop_reaches (e : Env) (fuel n j : Nat) (k : Int) (w : World)
    (hfuel : n ≤ fuel) (hj : j < (n + 511) / 512)
    (hfirst : ∀ h, (blockReads h).length < (blockReads w.trace).length + j →
      e.ret h Call.block_read = 512)
    (hk : ∀ h, (blockReads h).length = (blockReads w.trace).length + j →
      e.ret h Call.block_read = k)
    (hne : k ≠ T_BLOCKSIZE)
    (hwrite : ∀ h bytes, 0 ≤ e.ret h (Call.file_write bytes)) :
    ∃ evs, (regfile_loop e fuel (n : Int) w).2.trace = w.trace ++ evs ∧
      (blockReads evs)[j]? = some k := by
  induction fuel generalizing n j w with
  | zero =>
    obtain rfl : n = 0 := by omega
    simp at hj
  | succ f ih =>
    have hpos : 0 < n := by
      rcases Nat.eq_zero_or_pos n with h0 | h
      · subst h0; simp at hj
      · exact h
    have hi : (n : Int) > 0 := by omega
    cases j with
    | zero =>
      have hk0 : e.ret w.trace Call.block_read = k := hk w.trace (by simp)
      have hk1 : e.ret w.trace Call.block_read ≠ T_BLOCKSIZE := by rw [hk0]; exact hne
      rw [regfile_loop_read_fail e f n w hi hk1]
      by_cases hm : e.ret w.trace Call.block_read = -1
      · simp only [hm, ne_eq, not_true, if_false, call_trace, tar_block_read_trace,
          List.append_assoc, List.append_cancel_left_eq, exists_eq_left']
        simp [← hk0, hm]
      · simp only [hm, ne_eq, not_false_eq_true, if_true, call_trace,
          tar_block_read_trace, List.append_assoc, List.append_cancel_left_eq,
          exists_eq_left']
        simp [hk0]
    | succ j1 =>
      have hk512 : e.ret w.trace Call.block_read = T_BLOCKSIZE := hfirst w.trace (by omega)
      have hw : ¬ e.ret (tar_block_read e w).2.trace (Call.file_write
          ((e.block w.trace).take
            (if (n : Int) > T_BLOCKSIZE then T_BLOCKSIZE else (n : Int)).toNat)) < 0 :=
        not_lt.mpr (hwrite _ _)
      have hbig : 512 < n := by omega
      have hcast : (n : Int) - T_BLOCKSIZE = ((n - 512 : Nat) : Int) := by
        simp only [T_BLOCKSIZE]; omega
      rw [regfile_loop_step e f n w hi hk512 hw, hcast]
      have hcnt : (blockReads ((tar_block_read e w).2.call e (Call.file_write
          ((e.block w.trace).take
            (if (n : Int) > T_BLOCKSIZE then T_BLOCKSIZE else (n : Int)).toNat))).2.trace).length
          = (blockReads w.trace).length + 1 := by
        simp
      obtain ⟨evs, h2, h3⟩ := ih (n - 512) j1 ((tar_block_read e w).2.call e
        (Call.file_write ((e.block w.trace).take
          (if (n : Int) > T_BLOCKSIZE then T_BLOCKSIZE else (n : Int)).toNat))).2
        (by omega) (by omega)
        (fun h hh => hfirst h (by rw [hcnt] at hh; omega))
        (fun h hh => hk h (by rw [hcnt] at hh; omega))
      rw [h2]
      simp only [call_trace, tar_block_read_trace, List.append_assoc,
        List.append_cancel_left_eq, exists_eq_left']
      simpa using h3

/-- For a regular-file header of size `S ≤ 2^31 - 1`, with `mkdirhier` and the open
succeeding, the writes succeeding and the first `j < ⌈S/512⌉` block reads delivering
full blocks, `tar_extract_regfile` performs its `(j+1)`-th block read. -/
theorem tar_extract_regfile_reaches (e : Env) (t : TAR) (realname : Option CStr) (w : World)
    (j : Nat) (k : Int) (hne : k ≠ T_BLOCKSIZE)
    (hreg : t.isreg = true) (hsize : t.size ≤ 2 ^ 31 - 1) (hj : j < (t.size + 511) / 512)
    (hmk : e.ret w.trace (Call.mkdirhier (realname.getD t.pathname)) ≠ -1)
    (hopen : e.ret (w.calls e [Call.mkdirhier (realname.getD t.pathname)]).trace
      (Call.fs_open (realname.getD t.pathname)) ≠ 0)
    (herr : e.ret (w.calls e [Call.mkdirhier (realname.getD t.pathname),
      Call.fs_open (realname.getD t.pathname)]).trace Call.file_error = 0)
    (hfirst : ∀ h, (blockReads h).length < (blockReads w.trace).length + j →
      e.ret h Call.block_read = 512)
    (hk : ∀ h, (blockReads h).length = (blockReads w.trace).length + j →
      e.ret h Call.block_read = k)
    (hwrite : ∀ h bytes, 0 ≤ e.ret h (Call.file_write bytes)) :
    (blockReads (newEvents w (tar_extract_regfile e t realname w).2))[j]? = some k := by
  simp only [calls_cons, calls_nil, call_trace] at hopen herr
  have hrun : tar_extract_regfile e t realname w =
      regfile_loop e t.size (t.size : Int)
        (((w.call e (Call.mkdirhier (realname.getD t.pathname))).2.call e
          (Call.fs_open (realname.getD t.pathname))).2.call e Call.file_error).2 := by
    simp only [tar_extract_regfile, hreg, Bool.not_true, Bool.false_eq_true, if_false,
      call_fst, call_trace, hmk, hopen, herr, ne_eq, not_true, int_of_size_t_small t.size hsize,
      Int.toNat_ofNat]
  obtain ⟨evs, h2, h3⟩ := regfile_loop_reaches e t.size t.size j k
    (((w.call e (Call.mkdirhier (realname.getD t.pathname))).2.call e
      (Call.fs_open (realname.getD t.pathname))).2.call e Call.file_error).2 (le_refl _) hj
    (fun h hh => hfirst h (by simpa using hh)) (fun h hh => hk h (by simpa using hh)) hne hwrite
  rw [hrun]
  simp only [newEvents, h2, call_trace, List.append_assoc, List.drop_left]
  simpa using h3

theorem tar_extract_file_switch_reg (e : Env) (t : TAR) (realname : Option CStr) (w : World)
    (hdir : t.isdir = false) (hlnk : t.islnk = false) (hsym : t.issym = false)
    (hchr : t.ischr = false) (hblk : t.isblk = false) (hfifo : t.isfifo = false) :
    tar_extract_file_switch e t realname w =
      (some (tar_extract_regfile e t realname w).1, (tar_extract_regfile e t realname w).2) := by
  simp [tar_extract_file_switch, hdir, hlnk, hsym, hchr, hblk, hfifo]

/-- Claim C4: (1) if, while `tar_extract_regfile` runs, its `(j+1)`-th `tar_block_read`
returns a value `k` other than `T_BLOCKSIZE`, then it returns `-1`, `errno` is `EINVAL`
unless `k = -1`, the block reads it performed are exactly `j` reads that returned `512`
followed by that read (so `j + 1` reads and none after it), and it made exactly `j`
writes.  (2) The same premise on a run of `tar_extract_file` gives the result `-1`, an
unchanged link table and the same reads.  (3) For a regular-file header of size
`0 < S ≤ 2^31 - 1` and `j < ⌈S/512⌉`, with `mkdirhier`, the open and the writes
succeeding, a block source whose first `j` reads return `512` and whose `(j+1)`-th read
returns `k` does bring `tar_extract_regfile` to that read, with the results of (1); and
`tar_extract_file`, dispatching this entry to the regular-file extractor with overwrite
protection off, returns `-1` and adds no record. -/
theorem tar_extract_regfile_corrupt (e : Env) (t : TAR) (realname : Option CStr) (w : World)
    (j : Nat) (k : Int) (hne : k ≠ T_BLOCKSIZE) :
    ((blockReads (newEvents w (tar_extract_regfile e t realname w).2))[j]? = some k →
      (tar_extract_regfile e t realname w).1 = -1 ∧
      (k ≠ -1 → (tar_extract_regfile e t realname w).2.errno = EINVAL) ∧
      blockReads (newEvents w (tar_extract_regfile e t realname w).2) =
        List.replicate j 512 ++ [k] ∧
      (writes (newEvents w (tar_extract_regfile e t realname w).2)).length = j) ∧
    ((blockReads (newEvents w (tar_extract_file e t realname w).2))[j]? = some k →
      (tar_extract_file e t realname w).1 = some (-1) ∧
      (tar_extract_file e t realname w).2.table = w.table ∧
      blockReads (newEvents w (tar_extract_file e t realname w).2) =
        List.replicate j 512 ++ [k]) ∧
    (t.isreg = true → 0 < t.size → t.size ≤ 2 ^ 31 - 1 → j < (t.size + 511) / 512 →
      e.ret w.trace (Call.mkdirhier (realname.getD t.pathname)) ≠ -1 →
      e.ret (w.calls e [Call.mkdirhier (realname.getD t.pathname)]).trace
        (Call.fs_open (realname.getD t.pathname)) ≠ 0 →
      e.ret (w.calls e [Call.mkdirhier (realname.getD t.pathname),
        Call.fs_open (realname.getD t.pathname)]).trace Call.file_error = 0 →
      (∀ h, (blockReads h).length < (blockReads w.trace).length + j →
        e.ret h Call.block_read = 512) →
      (∀ h, (blockReads h).length = (blockReads w.trace).length + j →
        e.ret h Call.block_read = k) →
      (∀ h bytes, 0 ≤ e.ret h (Call.file_write bytes)) →
      ((tar_extract_regfile e t realname w).1 = -1 ∧
        (k ≠ -1 → (tar_extract_regfile e t realname w).2.errno = EINVAL) ∧
        blockReads (newEvents w (tar_extract_regfile e t realname w).2) =
          List.replicate j 512 ++ [k] ∧
        (writes (newEvents w (tar_extract_regfile e t realname w).2)).length = j) ∧
      (t.isdir = false → t.islnk = false → t.issym = false → t.ischr = false →
        t.isblk = false → t.isfifo = false → t.options &&& TAR_NOOVERWRITE = 0 →
        (tar_extract_file e t realname w).1 = some (-1) ∧
        (tar_extract_file e t realname w).2.table = w.table)) := by
  have part1 : (blockReads (newEvents w (tar_extract_regfile e t realname w).2))[j]? = some k →
      (tar_extract_regfile e t realname w).1 = -1 ∧
      (k ≠ -1 → (tar_extract_regfile e t realname w).2.errno = EINVAL) ∧
      blockReads (newEvents w (tar_extract_regfile e t realname w).2) =
        List.replicate j 512 ++ [k] ∧
      (writes (newEvents w (tar_extract_regfile e t realname w).2)).length = j := by
    intro hk
    obtain ⟨evs, h1, h2⟩ := tar_extract_regfile_shape e t realname w
    rw [newEvents_of_append _ _ evs h1] at hk ⊢
    obtain ⟨h3, h4, h5, h6⟩ := ReadsShape_short_read evs _ _ j k h2 hk hne
    exact ⟨h5, h6, h3, h4⟩
  refine ⟨part1, ?_, ?_⟩
  · intro hk
    obtain ⟨evs, h1, h2⟩ := tar_extract_file_shape e t realname w
    rw [newEvents_of_append _ _ evs h1] at hk ⊢
    obtain ⟨h3, _, h5, _⟩ := ReadsShape_short_read evs _ _ j k h2 hk hne
    have hres : (tar_extract_file e t realname w).1 = some (-1) := by
      cases hr : (tar_extract_file e t realname w).1 with
      | none => rw [hr] at h5; exact absurd h5 (by decide)
      | some r => rw [hr] at h5; exact congrArg some h5
    refine ⟨hres, ?_, h3⟩
    rw [tar_extract_file_table, if_neg (by rw [hres]; decide)]
  · intro hreg _ hsize hj hmk hopen herr hfirst hk hwrite
    have hreach := tar_extract_regfile_reaches e t realname w j k hne hreg hsize hj hmk hopen
      herr hfirst hk hwrite
    have hreg1 := part1 hreach
    refine ⟨hreg1, fun hdir hlnk hsym hchr hblk hfifo hopt => ?_⟩
    have hsw : (tar_extract_file_switch e t realname w).1 = some (-1) := by
      rw [tar_extract_file_switch_reg e t realname w hdir hlnk hsym hchr hblk hfifo, hreg1.1]
    have hres : (tar_extract_file e t realname w).1 = some (-1) := by
      rw [tar_extract_file_of_overwrite e t realname w hopt,
        tar_extract_file_body_of_ne_zero e t realname w (-1) hsw (by decide)]
    refine ⟨hres, ?_⟩
    rw [tar_extract_file_table, if_neg (by rw [hres]; decide)]

/-- Witness for `tar_extract_regfile_corrupt`: a file of 1000 bytes whose second block
read returns `100`; the premises of both readings hold. -/
theorem tar_extract_regfile_corrupt_witness :
    ((tar_extract_regfile shortEnv (regHdr 1000) (some [100]) w0).1 = -1 ∧
      (tar_extract_regfile shortEnv (regHdr 1000) (some [100]) w0).2.errno = EINVAL ∧
      blockReads (newEvents w0 (tar_extract_regfile shortEnv (regHdr 1000) (some [100]) w0).2) =
        [512, 100] ∧
      (writes (newEvents w0
        (tar_extract_regfile shortEnv (regHdr 1000) (some [100]) w0).2)).length = 1) ∧
    ((tar_extract_file shortEnv (regHdr 1000) (some [100]) w0).1 = some (-1) ∧
      (tar_extract_file shortEnv (regHdr 1000) (some [100]) w0).2.table = []) :=
  have h := tar_extract_regfile_corrupt shortEnv (regHdr 1000) (some [100]) w0 1 100
    (by decide)
  have h1 := h.1 (by decide)
  have h3 := h.2.2 (by decide) (by decide) (by decide) (by decide) (by decide) (by decide)
    (by decide)
    (fun hh hlt => by
      have hlen : (blockReads hh).length ≠ 1 := by
        have : (blockReads w0.trace).length = 0 := rfl
        omega
      show (if (blockReads hh).length = 1 then (100 : Int) else 512) = 512
      rw [if_neg hlen])
    (fun hh heq => by
      have hlen : (blockReads hh).length = 1 := by
        have : (blockReads w0.trace).length = 0 := rfl
        omega
      show (if (blockReads hh).length = 1 then (100 : Int) else 512) = 100
      rw [if_pos hlen])
    (fun _ _ => le_refl _)
  ⟨⟨h1.1, h1.2.1 (by decide), h1.2.2.1, h1.2.2.2⟩,
    h3.2 (by decide) (by decide) (by decide) (by decide) (by decide) (by decide) (by decide)⟩

/-! ## Ownership and permissions -/

theorem tar_extract_file_body_success (e : Env) (t : TAR) (realname : Option CStr) (w : World)
    (h : (tar_extract_file_body e t realname w).1 = some 0) :
    ∃ dest, realname = some dest ∧
      (tar_extract_file_switch e t realname w).1 = some 0 ∧
      (tar_extract_file_body e t realname w).2.trace =
        ((tar_extract_file_switch e t realname w).2.calls e
          [Call.fs_chown dest t.uid t.gid, Call.fs_chmod dest (t.mode &&& 0o7777),
           Call.calloc, Call.hash_add ⟨t.pathname.take 4095, dest.take 4095⟩]).trace := by
  cases hsw : (tar_extract_file_switch e t realname w).1 with
  | none => simp [tar_extract_file_body, hsw] at h
  | some i =>
    by_cases hi : i = 0
    · subst hi
      rw [tar_extract_file_body_of_zero e t realname w hsw] at h ⊢
      cases realname with
      | none =>
        simp only [tar_extract_file_record] at h
        split_ifs at h
        simp at h
      | some dest =>
        refine ⟨dest, rfl, rfl, ?_⟩
        simp only [tar_extract_file_record, libtar_hash_add] at h ⊢
        split_ifs at h ⊢ <;> simp_all
    · rw [tar_extract_file_body_of_ne_zero e t realname w i hsw hi] at h
      simp at h
      exact absurd h hi

/-- Claim C5 as amended: whenever `tar_extract_file` returns `0`, a destination was
supplied, the extractor selected by the switchboard returned `0`, and right after it the
dispatcher issued `chown(dest, uid, gid)` and then `chmod(dest, mode & 07777)`, in that
order, followed only by the allocation and insertion of the link record.  The results of
`chown` and `chmod` are not looked at. -/
theorem tar_extract_file_success_perms (e : Env) (t : TAR) (realname : Option CStr)
    (w : World) (h : (tar_extract_file e t realname w).1 = some 0) :
    ∃ dest w1, realname = some dest ∧
      (w1 = w ∨ w1 = w.calls e [Call.fs_lstat realname]) ∧
      (tar_extract_file_switch e t realname w1).1 = some 0 ∧
      (tar_extract_file e t realname w).2.trace =
        ((tar_extract_file_switch e t realname w1).2.calls e
          [Call.fs_chown dest t.uid t.gid, Call.fs_chmod dest (t.mode &&& 0o7777),
           Call.calloc, Call.hash_add ⟨t.pathname.take 4095, dest.take 4095⟩]).trace := by
  simp only [tar_extract_file] at h ⊢
  split_ifs at h ⊢ with h1 h2
  · simp at h
  · obtain ⟨dest, hd, hsw, htr⟩ := tar_extract_file_body_success e t realname _ h
    exact ⟨dest, _, hd, Or.inr rfl, hsw, htr⟩
  · obtain ⟨dest, hd, hsw, htr⟩ := tar_extract_file_body_success e t realname _ h
    exact ⟨dest, _, hd, Or.inl rfl, hsw, htr⟩

/-- Witness for `tar_extract_file_success_perms`: a directory extracted with every call
succeeding. -/
theorem tar_extract_file_success_perms_witness :
    (tar_extract_file okEnv dirHdr (some [100]) w0).1 = some 0 ∧
    ∃ dest w1, some [100] = some dest ∧
      (w1 = w0 ∨ w1 = w0.calls okEnv [Call.fs_lstat (some [100])]) ∧
      (tar_extract_file_switch okEnv dirHdr (some [100]) w1).1 = some 0 ∧
      (tar_extract_file okEnv dirHdr (some [100]) w0).2.trace =
        ((tar_extract_file_switch okEnv dirHdr (some [100]) w1).2.calls okEnv
          [Call.fs_chown dest dirHdr.uid dirHdr.gid,
           Call.fs_chmod dest (dirHdr.mode &&& 0o7777),
           Call.calloc, Call.hash_add ⟨dirHdr.pathname.take 4095, dest.take 4095⟩]).trace :=
  ⟨by decide, tar_extract_file_success_perms okEnv dirHdr (some [100]) w0 (by decide)⟩

/-- Claim C5 as stated fails: `chown` and `chmod` both fail (`-1`) in the metadata step
of a directory extraction, and `tar_extract_file` still returns `0` and records the
entry. -/
theorem tar_extract_file_perms_failure_ignored :
    tar_extract_file permsFailEnv dirHdr (some [100]) w0 =
      (some 0, ⟨[⟨Call.mkdirhier [100], 0, []⟩, ⟨Call.fs_mkdir [100], 0, []⟩,
            ⟨Call.fs_chown [100] 1000 100, -1, []⟩, ⟨Call.fs_chmod [100] 0o755, -1, []⟩,
            ⟨Call.calloc, 1, []⟩, ⟨Call.hash_add ⟨[102], [100]⟩, 0, []⟩], 0,
          [⟨[102], [100]⟩]⟩) := by
  decide

/-! ## Destination path of the dispatcher -/

/-- Claim C10, evaluated where it fails: no override is supplied (`realname` is null)
and overwrite protection is on.  The dispatcher hands the null pointer to `lstat`
instead of the header's pathname `"f"`; the extractor and the metadata step do use
`"f"`; then `strncpy` is given the null pointer, so no record `("f", "f")` is added and
no result is defined. -/
theorem tar_extract_file_null_realname :
    tar_extract_file freshEnv { dirHdr with options := 4 } none w0 =
      (none, ⟨[⟨Call.fs_lstat none, -2, []⟩, ⟨Call.mkdirhier [102], 0, []⟩,
            ⟨Call.fs_mkdir [102], 0, []⟩, ⟨Call.fs_chown [102] 1000 100, 0, []⟩,
            ⟨Call.fs_chmod [102] 0o755, 0, []⟩, ⟨Call.calloc, 1, []⟩], 0, []⟩) := by
  decide

/-- With an override supplied, a successful `tar_extract_file` appends the record whose
key is the header's pathname and whose real side is the override, each cut to 4095
bytes. -/
theorem tar_extract_file_records_override (e : Env) (t : TAR) (dest : CStr) (w : World)
    (h : (tar_extract_file e t (some dest) w).1 = some 0) :
    (tar_extract_file e t (some dest) w).2.table =
      w.table ++ [⟨t.pathname.take 4095, dest.take 4095⟩] := by
  rw [tar_extract_file_table, if_pos h]; rfl

/-! ## Hard links -/

theorem tar_extract_hardlink_eq (e : Env) (t : TAR) (realname : Option CStr) (w : World)
    (tgt : CStr) (hlnk : t.islnk = true)
    (hmk : e.ret w.trace (Call.mkdirhier (realname.getD t.pathname)) ≠ -1)
    (htgt : (match libtar_hash_getkey w.table t.linkname with
      | some lnp => lnp.ln_real
      | none => t.linkname) = tgt) :
    tar_extract_hardlink e t realname w =
      (if e.ret (w.calls e [Call.mkdirhier (realname.getD t.pathname)]).trace
          (Call.fs_link tgt (realname.getD t.pathname)) < 0 then -1 else 0,
        w.calls e [Call.mkdirhier (realname.getD t.pathname),
          Call.fs_link tgt (realname.getD t.pathname)]) := by
  simp only [calls_cons, calls_nil, call_trace]
  simp only [tar_extract_hardlink, hlnk, Bool.not_true, Bool.false_eq_true, if_false,
    call_fst, call_trace, call_table, hmk, htgt]
  split_ifs <;> rfl

theorem libtar_hash_getkey_none (h : List linkname) (key : CStr)
    (hno : ∀ x ∈ h, x.ln_save ≠ key) : libtar_hash_getkey h key = none := by
  simp only [libtar_hash_getkey, List.find?_eq_none]
  intro x hx
  simpa using hno x hx

theorem libtar_hash_getkey_unique (pre post : List linkname) (key real : CStr)
    (hpre : ∀ x ∈ pre, x.ln_save ≠ key) :
    libtar_hash_getkey (pre ++ [⟨key, real⟩] ++ post) key = some ⟨key, real⟩ := by
  have hnone := libtar_hash_getkey_none pre key hpre
  simp only [libtar_hash_getkey] at hnone ⊢
  simp [List.find?_append, hnone]

/-- Claim C3: for a hard-link header with link target `L` and destination `dest`, once
`mkdirhier` has not failed: (1) if an earlier `tar_extract_file` of an entry with
pathname `L` to the destination `DA` returned `0` (both shorter than 4096 bytes) and the
record it added is the only one with key `L` in the table, `tar_extract_hardlink` calls
`link(DA, dest)`, whatever `DA` is; (2) if no record has key `L` it calls
`link(L, dest)`; in both cases it returns `0` exactly when that call does not return a
negative value, and `-1` otherwise. -/
theorem tar_extract_hardlink_resolves (e : Env) (t : TAR) (realname : Option CStr)
    (w : World) (hlnk : t.islnk = true)
    (hmk : e.ret w.trace (Call.mkdirhier (realname.getD t.pathname)) ≠ -1) :
    (∀ (tA : TAR) (DA : CStr) (wA : World) (post : List linkname),
      (tar_extract_file e tA (some DA) wA).1 = some 0 →
      tA.pathname = t.linkname → t.linkname.length < 4096 → DA.length < 4096 →
      w.table = (tar_extract_file e tA (some DA) wA).2.table ++ post →
      (∀ x ∈ wA.table, x.ln_save ≠ t.linkname) → (∀ x ∈ post, x.ln_save ≠ t.linkname) →
      (tar_extract_hardlink e t realname w).2 =
        w.calls e [Call.mkdirhier (realname.getD t.pathname),
          Call.fs_link DA (realname.getD t.pathname)] ∧
      ((tar_extract_hardlink e t realname w).1 = 0 ↔
        0 ≤ e.ret (w.calls e [Call.mkdirhier (realname.getD t.pathname)]).trace
          (Call.fs_link DA (realname.getD t.pathname))) ∧
      ((tar_extract_hardlink e t realname w).1 = -1 ↔
        e.ret (w.calls e [Call.mkdirhier (realname.getD t.pathname)]).trace
          (Call.fs_link DA (realname.getD t.pathname)) < 0)) ∧
    ((∀ x ∈ w.table, x.ln_save ≠ t.linkname) →
      (tar_extract_hardlink e t realname w).2 =
        w.calls e [Call.mkdirhier (realname.getD t.pathname),
          Call.fs_link t.linkname (realname.getD t.pathname)] ∧
      ((tar_extract_hardlink e t realname w).1 = 0 ↔
        0 ≤ e.ret (w.calls e [Call.mkdirhier (realname.getD t.pathname)]).trace
          (Call.fs_link t.linkname (realname.getD t.pathname))) ∧
      ((tar_extract_hardlink e t realname w).1 = -1 ↔
        e.ret (w.calls e [Call.mkdirhier (realname.getD t.pathname)]).trace
          (Call.fs_link t.linkname (realname.getD t.pathname)) < 0)) := by
  have key : ∀ tgt : CStr, (match libtar_hash_getkey w.table t.linkname with
      | some lnp => lnp.ln_real
      | none => t.linkname) = tgt →
      (tar_extract_hardlink e t realname w).2 =
        w.calls e [Call.mkdirhier (realname.getD t.pathname),
          Call.fs_link tgt (realname.getD t.pathname)] ∧
      ((tar_extract_hardlink e t realname w).1 = 0 ↔
        0 ≤ e.ret (w.calls e [Call.mkdirhier (realname.getD t.pathname)]).trace
          (Call.fs_link tgt (realname.getD t.pathname))) ∧
      ((tar_extract_hardlink e t realname w).1 = -1 ↔
        e.ret (w.calls e [Call.mkdirhier (realname.getD t.pathname)]).trace
          (Call.fs_link tgt (realname.getD t.pathname)) < 0) := by
    intro tgt htgt
    rw [tar_extract_hardlink_eq e t realname w tgt hlnk hmk htgt]
    refine ⟨rfl, ?_, ?_⟩
    · show (if _ < 0 then (-1 : Int) else 0) = 0 ↔ _
      split_ifs with hneg
      · constructor
        · intro h; exact absurd h (by decide)
        · intro h; omega
      · constructor
        · intro _; omega
        · intro _; rfl
    · show (if _ < 0 then (-1 : Int) else 0) = -1 ↔ _
      split_ifs with hneg
      · exact ⟨fun _ => hneg, fun _ => rfl⟩
      · exact ⟨fun h => absurd h (by decide), fun h => absurd h hneg⟩
  refine ⟨fun tA DA wA post hA hL hlenL hlenD htab hpre _ => ?_, fun hno => ?_⟩
  · apply key
    rw [htab, tar_extract_file_records_override e tA DA wA hA, hL,
      List.take_of_length_le (by omega), List.take_of_length_le (by omega),
      libtar_hash_getkey_unique wA.table post t.linkname DA hpre]
  · apply key
    rw [libtar_hash_getkey_none w.table t.linkname hno]

/-- Witness for `tar_extract_hardlink_resolves`: the file `"f"` is extracted to `"d"`,
then the hard link `"h" -> "f"` is extracted to `"i"`; the link is made to `"d"`. -/
theorem tar_extract_hardlink_resolves_witness :
    (tar_extract_hardlink okEnv lnkHdr (some [105])
        (tar_extract_file okEnv (regHdr 0) (some [100]) w0).2).2 =
      (tar_extract_file okEnv (regHdr 0) (some [100]) w0).2.calls okEnv
        [Call.mkdirhier [105], Call.fs_link [100] [105]] ∧
    (tar_extract_hardlink okEnv lnkHdr (some [105])
        (tar_extract_file okEnv (regHdr 0) (some [100]) w0).2).1 = 0 :=
  have h := (tar_extract_hardlink_resolves okEnv lnkHdr (some [105])
    (tar_extract_file okEnv (regHdr 0) (some [100]) w0).2 (by decide) (by decide)).1
    (regHdr 0) [100] w0 [] (by decide) (by decide) (by decide) (by decide) (by simp)
    (by decide) (by decide)
  ⟨h.1, h.2.1.mpr (by decide)⟩

/-! ## Symbolic links -/

/-- Claim C7: for a symlink header, once `mkdirhier` has not failed, `tar_extract_symlink`
unlinks the destination; if that succeeds or returns `-ENOENT` it then calls
`symlink(linkname, dest)` with the header's link target unchanged, and returns `0` when
that call succeeds; if the unlink returns another negative value it returns `-1` and
`symlink` is not called. -/
theorem tar_extract_symlink_replace (e : Env) (t : TAR) (realname : Option CStr) (w : World)
    (hsym : t.issym = true)
    (hmk : e.ret w.trace (Call.mkdirhier (realname.getD t.pathname)) ≠ -1) :
    ((0 ≤ e.ret (w.calls e [Call.mkdirhier (realname.getD t.pathname)]).trace
          (Call.fs_unlink (realname.getD t.pathname)) ∨
      e.ret (w.calls e [Call.mkdirhier (realname.getD t.pathname)]).trace
          (Call.fs_unlink (realname.getD t.pathname)) = -ENOENT) →
      (tar_extract_symlink e t realname w).2 =
        w.calls e [Call.mkdirhier (realname.getD t.pathname),
          Call.fs_unlink (realname.getD t.pathname),
          Call.fs_symlink t.linkname (realname.getD t.pathname)] ∧
      (0 ≤ e.ret (w.calls e [Call.mkdirhier (realname.getD t.pathname),
            Call.fs_unlink (realname.getD t.pathname)]).trace
          (Call.fs_symlink t.linkname (realname.getD t.pathname)) →
        (tar_extract_symlink e t realname w).1 = 0)) ∧
    ((e.ret (w.calls e [Call.mkdirhier (realname.getD t.pathname)]).trace
          (Call.fs_unlink (realname.getD t.pathname)) < 0 ∧
      e.ret (w.calls e [Call.mkdirhier (realname.getD t.pathname)]).trace
          (Call.fs_unlink (realname.getD t.pathname)) ≠ -ENOENT) →
      tar_extract_symlink e t realname w =
        (-1, w.calls e [Call.mkdirhier (realname.getD t.pathname),
          Call.fs_unlink (realname.getD t.pathname)])) := by
  simp only [calls_cons, calls_nil, call_trace]
  simp only [tar_extract_symlink, hsym, Bool.not_true, Bool.false_eq_true, if_false,
    call_fst, call_trace, hmk]
  refine ⟨fun hu => ⟨?_, fun hs => ?_⟩, fun hu => ?_⟩
  · have hu2 : ¬ (e.ret (w.trace ++ [⟨Call.mkdirhier (realname.getD t.pathname),
        e.ret w.trace (Call.mkdirhier (realname.getD t.pathname)), []⟩])
        (Call.fs_unlink (realname.getD t.pathname)) < 0 ∧
        e.ret (w.trace ++ [⟨Call.mkdirhier (realname.getD t.pathname),
        e.ret w.trace (Call.mkdirhier (realname.getD t.pathname)), []⟩])
        (Call.fs_unlink (realname.getD t.pathname)) ≠ -ENOENT) := by
      rcases hu with hu | hu
      · omega
      · exact fun h => h.2 hu
    rw [if_neg hu2]
    split <;> rfl
  · have hu2 : ¬ (e.ret (w.trace ++ [⟨Call.mkdirhier (realname.getD t.pathname),
        e.ret w.trace (Call.mkdirhier (realname.getD t.pathname)), []⟩])
        (Call.fs_unlink (realname.getD t.pathname)) < 0 ∧
        e.ret (w.trace ++ [⟨Call.mkdirhier (realname.getD t.pathname),
        e.ret w.trace (Call.mkdirhier (realname.getD t.pathname)), []⟩])
        (Call.fs_unlink (realname.getD t.pathname)) ≠ -ENOENT) := by
      rcases hu with hu | hu
      · omega
      · exact fun h => h.2 hu
    rw [if_neg hu2]
    split
    · omega
    · rfl
  · rw [if_pos hu]

/-- Witness for `tar_extract_symlink_replace`: every call succeeds. -/
theorem tar_extract_symlink_replace_witness :
    (tar_extract_symlink okEnv symHdr (some [100]) w0).2 =
      w0.calls okEnv [Call.mkdirhier [100], Call.fs_unlink [100], Call.fs_symlink [116] [100]] ∧
    (tar_extract_symlink okEnv symHdr (some [100]) w0).1 = 0 :=
  have h := (tar_extract_symlink_replace okEnv symHdr (some [100]) w0 (by decide)
    (by decide)).1 (Or.inl (by decide))
  ⟨h.1, h.2 (by decide)⟩

/-- Claim C8, evaluated where it fails: the filesystem's `symlink` returns `-EACCES`
(`-13`); `tar_extract_symlink` compares the result with `-1` only and returns `0`, and
`tar_extract_file` goes on to `chown`, `chmod`, records the entry and returns `0`. -/
theorem tar_extract_symlink_eacces :
    tar_extract_symlink eaccesEnv symHdr (some [100]) w0 =
      (0, ⟨[⟨Call.mkdirhier [100], 0, []⟩, ⟨Call.fs_unlink [100], 0, []⟩,
            ⟨Call.fs_symlink [116] [100], -13, []⟩], 0, []⟩) ∧
    tar_extract_file eaccesEnv symHdr (some [100]) w0 =
      (some 0, ⟨[⟨Call.mkdirhier [100], 0, []⟩, ⟨Call.fs_unlink [100], 0, []⟩,
            ⟨Call.fs_symlink [116] [100], -13, []⟩, ⟨Call.fs_chown [100] 1000 100, 0, []⟩,
            ⟨Call.fs_chmod [100] 0o644, 0, []⟩, ⟨Call.calloc, 1, []⟩,
            ⟨Call.hash_add ⟨[102], [100]⟩, 0, []⟩], 0, [⟨[102], [100]⟩]⟩) := by
  decide

/-! ## Directories -/

/-- The three outcomes of `tar_extract_dir` once `mkdirhier` has not failed. -/
theorem tar_extract_dir_eq (e : Env) (t : TAR) (realname : Option CStr) (w : World)
    (hdir : t.isdir = true)
    (hmk : e.ret w.trace (Call.mkdirhier (realname.getD t.pathname)) ≠ -1) :
    tar_extract_dir e t realname w =
      if e.ret (w.calls e [Call.mkdirhier (realname.getD t.pathname)]).trace
          (Call.fs_mkdir (realname.getD t.pathname)) < 0 then
        if e.ret (w.calls e [Call.mkdirhier (realname.getD t.pathname)]).trace
            (Call.fs_mkdir (realname.getD t.pathname)) = -EEXIST then
          (if e.ret (w.calls e [Call.mkdirhier (realname.getD t.pathname),
                Call.fs_mkdir (realname.getD t.pathname)]).trace
              (Call.fs_chmod (realname.getD t.pathname) t.mode) < 0 then -1 else 1,
            w.calls e [Call.mkdirhier (realname.getD t.pathname),
              Call.fs_mkdir (realname.getD t.pathname),
              Call.fs_chmod (realname.getD t.pathname) t.mode])
        else (-1, w.calls e [Call.mkdirhier (realname.getD t.pathname),
              Call.fs_mkdir (realname.getD t.pathname)])
      else (0, w.calls e [Call.mkdirhier (realname.getD t.pathname),
              Call.fs_mkdir (realname.getD t.pathname)]) := by
  simp only [calls_cons, calls_nil, call_trace]
  simp only [tar_extract_dir, hdir, Bool.not_true, Bool.false_eq_true, if_false,
    call_fst, call_trace, hmk]
  split
  · split
    · split <;> rfl
    · rfl
  · rfl

/-- A directory extraction through the dispatcher succeeds from every state when
`mkdirhier` never fails, `mkdir` creates the directory or reports `-EEXIST`, `chmod`
succeeds, and the record can be allocated and added. -/
theorem tar_extract_file_dir_ok (e : Env) (t : TAR) (dest : CStr) (w : World)
    (hdir : t.isdir = true) (hopt : t.options &&& TAR_NOOVERWRITE = 0)
    (hmk : ∀ h, e.ret h (Call.mkdirhier dest) ≠ -1)
    (hmkdir : ∀ h, 0 ≤ e.ret h (Call.fs_mkdir dest) ∨ e.ret h (Call.fs_mkdir dest) = -EEXIST)
    (hchmod : ∀ h, 0 ≤ e.ret h (Call.fs_chmod dest t.mode))
    (hcalloc : ∀ h, e.ret h Call.calloc ≠ 0)
    (hadd : ∀ h lnp, e.ret h (Call.hash_add lnp) = 0) :
    (tar_extract_file e t (some dest) w).1 = some 0 := by
  have hd := tar_extract_dir_eq e t (some dest) w hdir (hmk _)
  simp only [Option.getD_some] at hd
  have hsw : (tar_extract_file_switch e t (some dest) w).1 = some 0 := by
    rw [tar_extract_file_switch_dir e t _ w hdir, hd]
    rcases hmkdir (w.calls e [Call.mkdirhier dest]).trace with h | h
    · rw [if_neg (not_lt.mpr h)]; rfl
    · have hlt : e.ret (w.calls e [Call.mkdirhier dest]).trace (Call.fs_mkdir dest) < 0 := by
        rw [h]; decide
      rw [if_pos hlt, if_pos h, if_neg (not_lt.mpr (hchmod _))]; rfl
  rw [tar_extract_file_of_overwrite e t _ w hopt, tar_extract_file_body_of_zero e t _ w hsw,
    tar_extract_file_record_ok e t dest _ (hcalloc _) (hadd _ _)]

/-- Claim C6: for a directory header with overwrite protection off and `mkdirhier` not
failing: (1) when `mkdir` returns `-EEXIST` and `chmod(dest, mode)` succeeds,
`tar_extract_dir` returns `1` after exactly the calls `mkdirhier`, `mkdir`, `chmod`, and
`tar_extract_file` (destination supplied, record allocated and added) returns `0`;
(2) in an environment where these calls keep succeeding, extracting the entry twice in a
row returns `0` both times; (3) a `mkdir` failure other than `-EEXIST`, or a failing
`chmod` on the existing directory, makes both functions return `-1`. -/
theorem tar_extract_dir_reuse (e : Env) (t : TAR) (dest : CStr) (w : World)
    (hdir : t.isdir = true) (hopt : t.options &&& TAR_NOOVERWRITE = 0)
    (hmk : e.ret w.trace (Call.mkdirhier dest) ≠ -1) :
    (e.ret (w.calls e [Call.mkdirhier dest]).trace (Call.fs_mkdir dest) = -EEXIST →
      0 ≤ e.ret (w.calls e [Call.mkdirhier dest, Call.fs_mkdir dest]).trace
        (Call.fs_chmod dest t.mode) →
      tar_extract_dir e t (some dest) w =
        (1, w.calls e [Call.mkdirhier dest, Call.fs_mkdir dest, Call.fs_chmod dest t.mode]) ∧
      (e.ret (w.calls e [Call.mkdirhier dest, Call.fs_mkdir dest, Call.fs_chmod dest t.mode,
          Call.fs_chown dest t.uid t.gid, Call.fs_chmod dest (t.mode &&& 0o7777)]).trace
          Call.calloc ≠ 0 →
        e.ret (w.calls e [Call.mkdirhier dest, Call.fs_mkdir dest, Call.fs_chmod dest t.mode,
          Call.fs_chown dest t.uid t.gid, Call.fs_chmod dest (t.mode &&& 0o7777),
          Call.calloc]).trace (Call.hash_add ⟨t.pathname.take 4095, dest.take 4095⟩) = 0 →
        (tar_extract_file e t (some dest) w).1 = some 0)) ∧
    ((∀ h, e.ret h (Call.mkdirhier dest) ≠ -1) →
      (∀ h, 0 ≤ e.ret h (Call.fs_mkdir dest) ∨ e.ret h (Call.fs_mkdir dest) = -EEXIST) →
      (∀ h, 0 ≤ e.ret h (Call.fs_chmod dest t.mode)) →
      (∀ h, e.ret h Call.calloc ≠ 0) → (∀ h lnp, e.ret h (Call.hash_add lnp) = 0) →
      (tar_extract_file e t (some dest) w).1 = some 0 ∧
      (tar_extract_file e t (some dest) (tar_extract_file e t (some dest) w).2).1 = some 0) ∧
    (((e.ret (w.calls e [Call.mkdirhier dest]).trace (Call.fs_mkdir dest) < 0 ∧
        e.ret (w.calls e [Call.mkdirhier dest]).trace (Call.fs_mkdir dest) ≠ -EEXIST) ∨
      (e.ret (w.calls e [Call.mkdirhier dest]).trace (Call.fs_mkdir dest) = -EEXIST ∧
        e.ret (w.calls e [Call.mkdirhier dest, Call.fs_mkdir dest]).trace
          (Call.fs_chmod dest t.mode) < 0)) →
      (tar_extract_dir e t (some dest) w).1 = -1 ∧
      (tar_extract_file e t (some dest) w).1 = some (-1)) := by
  have hd := tar_extract_dir_eq e t (some dest) w hdir hmk
  simp only [Option.getD_some] at hd
  refine ⟨fun hex hch => ?_, fun h1 h2 h3 h4 h5 => ?_, fun hbad => ?_⟩
  · have hlt : e.ret (w.calls e [Call.mkdirhier dest]).trace (Call.fs_mkdir dest) < 0 := by
      rw [hex]; decide
    have hdir1 : tar_extract_dir e t (some dest) w =
        (1, w.calls e [Call.mkdirhier dest, Call.fs_mkdir dest, Call.fs_chmod dest t.mode]) := by
      rw [hd, if_pos hlt, if_pos hex, if_neg (not_lt.mpr hch)]
    refine ⟨hdir1, fun hcalloc hadd => ?_⟩
    have hsw : tar_extract_file_switch e t (some dest) w =
        (some 0, w.calls e [Call.mkdirhier dest, Call.fs_mkdir dest,
          Call.fs_chmod dest t.mode]) := by
      rw [tar_extract_file_switch_dir e t _ w hdir, hdir1]; rfl
    have hsw1 : (tar_extract_file_switch e t (some dest) w).1 = some 0 := by rw [hsw]
    rw [tar_extract_file_of_overwrite e t _ w hopt, tar_extract_file_body_of_zero e t _ w hsw1,
      hsw, Option.getD_some, ← calls_append]
    exact congrArg Prod.fst (tar_extract_file_record_ok e t dest _ hcalloc
      (by rw [← calls_append]; exact hadd))
  · exact ⟨tar_extract_file_dir_ok e t dest w hdir hopt h1 h2 h3 h4 h5,
      tar_extract_file_dir_ok e t dest _ hdir hopt h1 h2 h3 h4 h5⟩
  · have hdir1 : (tar_extract_dir e t (some dest) w).1 = -1 := by
      rw [hd]
      rcases hbad with ⟨hlt, hne⟩ | ⟨hex, hch⟩
      · rw [if_pos hlt, if_neg hne]
      · have hlt : e.ret (w.calls e [Call.mkdirhier dest]).trace (Call.fs_mkdir dest) < 0 := by
          rw [hex]; decide
        rw [if_pos hlt, if_pos hex, if_pos hch]
    refine ⟨hdir1, ?_⟩
    have hsw1 : (tar_extract_file_switch e t (some dest) w).1 = some (-1) := by
      rw [tar_extract_file_switch_dir e t _ w hdir, hdir1]; rfl
    rw [tar_extract_file_of_overwrite e t _ w hopt,
      tar_extract_file_body_of_ne_zero e t _ w (-1) hsw1 (by decide)]

/-- Witness for `tar_extract_dir_reuse`: the directory exists, `chmod` succeeds; the
directory extractor reports `1` and the dispatcher `0`. -/
theorem tar_extract_dir_reuse_witness :
    tar_extract_dir existsEnv dirHdr (some [100]) w0 =
      (1, w0.calls existsEnv [Call.mkdirhier [100], Call.fs_mkdir [100],
        Call.fs_chmod [100] 0o40755]) ∧
    (tar_extract_file existsEnv dirHdr (some [100]) w0).1 = some 0 :=
  have h := (tar_extract_dir_reuse existsEnv dirHdr [100] w0 (by decide) (by decide)
    (by decide)).1 (by decide) (by decide)
  ⟨h.1, h.2 (by decide) (by decide)⟩

/-! ## Devices and FIFOs -/

/-- Character and block devices: when the header is not also a directory, hard link or
symlink, `tar_extract_file` returns `-1`; the calls it made are non-mutating (the
overwrite `lstat`, the warning) and the link table is unchanged. -/
theorem tar_extract_file_dev (e : Env) (t : TAR) (realname : Option CStr) (w : World)
    (hdir : t.isdir = false) (hlnk : t.islnk = false) (hsym : t.issym = false)
    (hdev : t.ischr = true ∨ t.isblk = true) :
    (tar_extract_file e t realname w).1 = some (-1) ∧
    (∀ ev ∈ newEvents w (tar_extract_file e t realname w).2,
      ev.call.mutating = false) ∧
    (tar_extract_file e t realname w).2.table = w.table := by
  have hsw : ∀ w1 : World, tar_extract_file_switch e t realname w1 =
      (some (-1), (w1.call e Call.warning).2) := by
    intro w1
    rcases hdev with h | h
    · simp [tar_extract_file_switch, hdir, hlnk, hsym, h, tar_extract_chardev,
      tar_extract_dev]
    · cases hc : t.ischr <;>
      simp [tar_extract_file_switch, hdir, hlnk, hsym, h, hc, tar_extract_chardev,
        tar_extract_blockdev, tar_extract_dev]
  unfold tar_extract_file tar_extract_file_body
  simp only [hsw]
  split
  · split <;> simp [Call.mutating, newEvents]
  · simp [Call.mutating, newEvents]

/-- Claim C9, evaluated where it fails: for a FIFO header `tar_extract_fifo` prints the
warning and ends without a `return`, so the dispatcher tests a value that is not
defined; the code does not establish the non-zero result. -/
theorem tar_extract_file_fifo_undefined :
    tar_extract_fifo okEnv w0 = (none, ⟨[⟨Call.warning, 0, []⟩], 0, []⟩) ∧
    tar_extract_file okEnv fifoHdr (some [100]) w0 =
      (none, ⟨[⟨Call.warning, 0, []⟩], 0, []⟩) := by
  decide

end Extract
